import Mathlib

/-
Verification of the routesim multi-protocol routing core.

Shallow embedding of:
  src/core/src/simulation/TopologyModels.ts   (Device, TopologyManager)
  src/core/src/routing/StaticRoutingEngine.ts
  src/core/src/routing/OspfRoutingEngine.ts
  src/core/src/routing/IsisRoutingEngine.ts
  src/core/src/routing/BgpRoutingEngine.ts

Conventions of the embedding:
  - A JavaScript Map is embedded as an insertion-ordered association list
    (List (String × β)) with JS Map semantics: set updates an existing key
    in place (keeping its position) and otherwise appends; iteration order
    is insertion order.
  - Methods returning void but calling Device.sendPacket are embedded as
    functions returning (newState, list of sendPacket calls), where each
    call is the pair (interfaceId, packet).
  - setTimeout and setInterval handles are embedded as Nat ids drawn from a
    counter; the engine state carries the list of still-scheduled timers.
    Clearing a JS Map that holds timer handles does not cancel the timers
    (only clearTimeout or clearInterval does), so operations that only clear
    maps leave the pending-timer list untouched, exactly as in Node.js.
  - `any`-typed payloads are embedded as structures holding exactly the
    fields the code reads, with Option for fields the code defaults via
    `||` or `??`.
-/

/-! ## Insertion-ordered association lists (JS Map embedding) -/

/-- `Map.get k`: first (only) binding of `k`. -/
def aget {β : Type} : List (String × β) → String → Option β
  | [], _ => none
  | (k', v) :: rest, k => if k' = k then some v else aget rest k

/-- `Map.set k v`: replace in place if present, else append. -/
def aset {β : Type} : List (String × β) → String → β → List (String × β)
  | [], k, v => [(k, v)]
  | (k', v') :: rest, k, v =>
    if k' = k then (k, v) :: rest else (k', v') :: aset rest k v

/-- `Map.delete k`. -/
def adel {β : Type} (m : List (String × β)) (k : String) : List (String × β) :=
  m.filter (fun kv => !(kv.1 == k))

/-- The keys of the map, in iteration order. -/
def akeys {β : Type} (m : List (String × β)) : List String :=
  m.map Prod.fst

/-! ## Shared value types (TopologyModels.ts) -/

/-- TopologyModels.ts `RoutingEntry`. Metric and distance are embedded as Nat
(the code only ever produces nonnegative values). -/
structure RoutingEntry where
  destination : String
  nextHop : String
  metric : Nat
  protocol : String
  administrativeDistance : Nat
deriving DecidableEq, Repr

/-- TopologyModels.ts `NetworkInterface`, flattened: the `link` back-reference
is object-graph plumbing not read by any operation embedded here. -/
structure NetworkInterface where
  name : String
  ipAddresses : List String
  status : String
deriving DecidableEq, Repr

/-- TopologyModels.ts `Device`. `routingEngines` is embedded, where needed,
as the list of the engines' current tables (`updateRoutingTable` reads the
engines only through `getRoutingTable()`). -/
structure Device where
  id : String
  name : String
  interfaces : List (String × NetworkInterface)
  routingTable : List RoutingEntry
deriving DecidableEq, Repr

/-- `new Device(id)`: `name = name ?? id`, empty interface map, no engines,
empty routing table. -/
def Device.new (id : String) : Device :=
  { id := id, name := id, interfaces := [], routingTable := [] }

/-- A generic packet as seen by `Device.sendPacket` (the payload is opaque
there: the method only logs it). -/
structure Packet where
  ptype : String
deriving DecidableEq, Repr

/-- `Device.sendPacket(interfaceId, packet)` (TopologyModels.ts lines 94-97).
The body is `console.log(...)` followed by `// TODO: Implement packet
delivery to connected device`: no lookup, no drop test, no delivery.  The
returned list of deliveries `(deviceId, packet)` is therefore always empty,
whatever the device, interface or link state. -/
def Device.sendPacket (_d : Device) (_interfaceId : String) (_packet : Packet) :
    List (String × Packet) :=
  []

/-- `Device.updateRoutingTable()` (TopologyModels.ts lines 136-144): push every
engine's `getRoutingTable()` into one list and store it.  The comment
`// TODO: Apply administrative distance, longest prefix match, etc.` is in the
source; no selection happens. -/
def updateRoutingTable (engineTables : List (List RoutingEntry)) : List RoutingEntry :=
  engineTables.foldl (fun acc t => acc ++ t) []

/-- TopologyModels.ts `TopologyManager`.  The `links` set is omitted:
`addDevice` neither reads nor writes it. -/
structure TopologyManager where
  devices : List (String × Device)
deriving DecidableEq, Repr

/-- `TopologyManager.addDevice(id)` (TopologyModels.ts lines 165-169):
`const device = new Device(id); this.devices.set(id, device); return device;`
— no duplicate check, no error path. -/
def addDevice (tm : TopologyManager) (id : String) : TopologyManager × Device :=
  let device := Device.new id
  ({ devices := aset tm.devices id device }, device)

/-! ## Static engine (StaticRoutingEngine.ts)

The engine's only mutable state beyond the device/topology bindings is
`staticRoutes : RoutingEntry[]`. -/

/-- `StaticRoutingEngine.init(device, topology)` (lines 18-22): sets
`this.device` and `this.topology` and logs.  It does NOT touch
`this.staticRoutes`, so on the routes — the state embedded here — it is the
identity. -/
def staticInit (staticRoutes : List RoutingEntry) : List RoutingEntry :=
  staticRoutes

/-- `StaticRoutingEngine.addStaticRoute(route)`. -/
def addStaticRoute (staticRoutes : List RoutingEntry) (route : RoutingEntry) :
    List RoutingEntry :=
  staticRoutes ++ [route]

/-- `StaticRoutingEngine.shutdown()`: `this.staticRoutes = []`. -/
def staticShutdown (_staticRoutes : List RoutingEntry) : List RoutingEntry :=
  []

/-! ## Link-state engines (OspfRoutingEngine.ts, IsisRoutingEngine.ts)

The two engines are textually identical up to naming (neighbors/adjacencies,
routerId/systemId, ospf-lsa/isis-lsp), the protocol tag and the
administrative distance (110 / 115); they are embedded once, parameterised,
with named wrappers per engine. -/

/-- The LSA / LSP payload, holding exactly the fields the code reads.
`routerId` stands for OSPF's `payload.routerId` and IS-IS's
`payload.systemId`.  `neighbors` and `prefixes` are read through `|| []`, so
absent fields are embedded as the empty list. -/
structure LsaPayload where
  routerId : String
  neighbors : List String
  prefixes : List String
  sequenceNumber : Nat
deriving DecidableEq, Repr

/-- One node of the SPF graph, as built by `recomputeRoutes` from an LSDB
entry: `{ neighbors: lsa.neighbors || [], prefixes: lsa.prefixes || [] }`. -/
structure LsNode where
  neighbors : List String
  prefixes : List String
deriving DecidableEq, Repr

/-- Mutable state of a link-state engine: `neighbors` (OSPF) /
`adjacencies` (IS-IS) as interfaceId → Bool, the LSDB keyed by
router/system id, and the routing table. -/
structure LsState where
  neighbors : List (String × Bool)
  lsdb : List (String × LsaPayload)
  routingTable : List RoutingEntry
deriving DecidableEq, Repr

/-- One `device.sendPacket(ifaceId, {type, payload})` call made by a
link-state engine. -/
structure LsEmission where
  iface : String
  ptype : String
  payload : LsaPayload
deriving DecidableEq, Repr

/-- The first half of `recomputeRoutes`: the graph built from the LSDB by
`graph.set(routerId, {...})` over `lsdb.entries()`.  With distinct LSDB keys
(a JS Map invariant) this is a per-entry map in iteration order. -/
def graphOf (lsdb : List (String × LsaPayload)) : List (String × LsNode) :=
  lsdb.map (fun kv => (kv.1, { neighbors := kv.2.neighbors, prefixes := kv.2.prefixes }))

/-- `graph.get(u)?.neighbors || []`. -/
def nbrs (g : List (String × LsNode)) (u : String) : List String :=
  match aget g u with
  | some nd => nd.neighbors
  | none => []

/-- The `distances` and `previous` maps of the Dijkstra loop.  Both are used
only through get/set, so they are embedded as functions; absent keys are
`none` (`?? Infinity` for distances). -/
structure DState where
  dist : String → Option Nat
  prev : String → Option String

/-- Pointwise map update. -/
def upd {β : Type} (f : String → β) (k : String) (v : β) : String → β :=
  fun x => if x = k then v else f x

/-- One iteration of the inner relaxation loop body for neighbor `v` of the
just-visited node `u`:
`if (visited.has(v)) continue;
 const alt = (distances.get(u) ?? Infinity) + 10;
 if (alt < (distances.get(v) ?? Infinity)) { distances.set(v, alt); previous.set(v, u); }`
(with `Infinity + 10 = Infinity`, which never relaxes anything). -/
def relaxStep (u : String) (visited : List String) (st : DState) (v : String) : DState :=
  if visited.contains v then st
  else
    match st.dist u with
    | none => st
    | some du =>
      match st.dist v with
      | none => ⟨upd st.dist v (some (du + 10)), upd st.prev v (some u)⟩
      | some dv =>
        if du + 10 < dv then ⟨upd st.dist v (some (du + 10)), upd st.prev v (some u)⟩
        else st

/-- The whole relaxation loop `for (const v of neighbors) ...`. -/
def relaxAll (u : String) (vs : List String) (visited : List String) (st : DState) : DState :=
  vs.foldl (relaxStep u visited) st

/-- One iteration of the min-extraction scan over the queue:
`const dist = distances.get(node) ?? Infinity;
 if (dist < minDist) { minDist = dist; u = node; }`
(nothing beats Infinity by `<`, and an infinite candidate never wins). -/
def selStep (dist : String → Option Nat) (acc : Option (String × Nat)) (node : String) :
    Option (String × Nat) :=
  match dist node with
  | none => acc
  | some d =>
    match acc with
    | none => some (node, d)
    | some (b, m) => if d < m then some (node, d) else some (b, m)

/-- The whole scan `let u = null; let minDist = Infinity; for (const node of
queue) ...`, returning the first node attaining the minimum finite distance,
if any. -/
def selectMin (dist : String → Option Nat) (queue : List String) : Option (String × Nat) :=
  queue.foldl (selStep dist) none

/-- The `while (queue.size > 0)` Dijkstra loop.  The fuel argument makes the
recursion structural; called with fuel = initial queue length it never runs
out, because each iteration removes the selected element from the queue
(queue length and fuel decrease in lockstep), so the fuel-0 branch is reached
only with an empty queue — the loop's own exit condition. -/
def dijkstraGo (g : List (String × LsNode)) :
    Nat → DState → List String → List String → DState
  | 0, st, _, _ => st
  | fuel + 1, st, visited, queue =>
    if queue.isEmpty then st
    else
      match selectMin st.dist queue with
      | none => st
      | some (u, _) =>
        dijkstraGo g fuel (relaxAll u (nbrs g u) (visited ++ [u]) st)
          (visited ++ [u]) (queue.erase u)

/-- Dijkstra as run by `recomputeRoutes`:
`distances.set(this.device.name, 0); const queue = new Set(graph.keys());`
then the loop. -/
def dijkstra (g : List (String × LsNode)) (me : String) : DState :=
  dijkstraGo g (akeys g).length
    ⟨fun x => if x = me then some 0 else none, fun _ => none⟩ [] (akeys g)

/-- The next-hop back-walk of `recomputeRoutes`:
`let nextHop = routerId; let prev = previous.get(routerId);
 while (prev && prev !== this.device.name) { nextHop = prev; prev = previous.get(prev); }`
`prev && ...` is a JS truthiness test, so the empty string also stops the
walk.  The fuel bound (callers pass lsdb length + 1) is justified because on
the maps Dijkstra produces the distance strictly decreases along the chain,
bounding its length by the number of keys. -/
def walkPrev (fuel : Nat) (prev : String → Option String) (me x : String) : String :=
  match fuel with
  | 0 => x
  | f + 1 =>
    match prev x with
    | none => x
    | some p => if p = "" ∨ p = me then x else walkPrev f prev me p

/-- `recomputeRoutes` of the link-state engines (OspfRoutingEngine.ts lines
119-182, IsisRoutingEngine.ts lines 121-187): build the graph, run Dijkstra
from `this.device.name`, then for every graph node other than the local one
emit one entry per prefix, with
`metric: distances.get(routerId) ?? 10` — note the fallback: a node with NO
computed distance (unreachable) still yields entries with metric 10 — and
the back-walked next hop. -/
def spfCompute (proto : String) (ad : Nat) (me : String)
    (lsdb : List (String × LsaPayload)) : List RoutingEntry :=
  let g := graphOf lsdb
  let st := dijkstra g me
  g.foldl
    (fun table kv =>
      if kv.1 = me then table
      else
        table ++ kv.2.prefixes.map (fun p =>
          { destination := p
            nextHop := walkPrev (lsdb.length + 1) st.prev me kv.1
            metric := (st.dist kv.1).getD 10
            protocol := proto
            administrativeDistance := ad }))
    []

/-- Flooding loop shared by `floodLsa`/`floodLsp` and the reflood in
`processLsa`/`processLsp`:
`for (const [ifaceId, isUp] of neighbors.entries()) if (isUp) sendPacket(...)`.
Every up neighbor interface is included; the function has no ingress
parameter to exclude — neither does the source. -/
def floodAll (neighbors : List (String × Bool)) (ptype : String) (pl : LsaPayload) :
    List LsEmission :=
  (neighbors.filter (fun kv => kv.2 = true)).map
    (fun kv => { iface := kv.1, ptype := ptype, payload := pl })

/-- `processLsa(payload)` (OSPF, lines 101-117) = `processLsp(payload)`
(IS-IS, lines 102-119): accept iff no stored record for the originator or
the incoming `sequenceNumber` is strictly greater; on acceptance store it,
recompute routes, and flood it to every up neighbor interface (the ingress
interface is not known to this method, hence not excluded). -/
def processDbRecord (proto ptype : String) (ad : Nat) (me : String)
    (s : LsState) (pl : LsaPayload) : LsState × List LsEmission :=
  let accept :=
    match aget s.lsdb pl.routerId with
    | none => true
    | some existing => pl.sequenceNumber > existing.sequenceNumber
  if accept then
    let lsdb := aset s.lsdb pl.routerId pl
    ({ s with lsdb := lsdb, routingTable := spfCompute proto ad me lsdb },
     floodAll s.neighbors ptype pl)
  else (s, [])

namespace Ospf

/-- `OspfRoutingEngine.init` (lines 21-29): clears `neighbors`, `lsdb` and
`routingTable` (the device/topology bindings are parameters elsewhere in this
embedding). -/
def init (_s : LsState) : LsState :=
  { neighbors := [], lsdb := [], routingTable := [] }

/-- `OspfRoutingEngine.processLsa`. -/
def processLsa (me : String) (s : LsState) (pl : LsaPayload) : LsState × List LsEmission :=
  processDbRecord "ospf" "ospf-lsa" 110 me s pl

/-- `OspfRoutingEngine.recomputeRoutes`. -/
def recomputeRoutes (me : String) (lsdb : List (String × LsaPayload)) : List RoutingEntry :=
  spfCompute "ospf" 110 me lsdb

end Ospf

namespace Isis

/-- `IsisRoutingEngine.init` (clears `adjacencies`, `lsdb`, `routingTable`). -/
def init (_s : LsState) : LsState :=
  { neighbors := [], lsdb := [], routingTable := [] }

/-- `IsisRoutingEngine.processLsp`. -/
def processLsp (me : String) (s : LsState) (pl : LsaPayload) : LsState × List LsEmission :=
  processDbRecord "isis" "isis-lsp" 115 me s pl

/-- `IsisRoutingEngine.recomputeRoutes`. -/
def recomputeRoutes (me : String) (lsdb : List (String × LsaPayload)) : List RoutingEntry :=
  spfCompute "isis" 115 me lsdb

end Isis

/-! ## BGP engine (BgpRoutingEngine.ts) -/

/-- A route as stored in the Adj-RIB-In (the code's `any`): the fields
`compareRoutes` and `recomputeRoutes` read, optional where the code defaults
them with `||`. -/
structure BgpRoute where
  pfx : String
  nextHop : String
  metric : Option Nat
  localPref : Option Nat
  asPath : Option (List Nat)
  med : Option Nat
deriving DecidableEq, Repr

/-- `a.localPref || 100`: JS `||` takes the default when the field is absent
(undefined) — or 0, which is falsy. -/
def lpVal (o : Option Nat) : Nat :=
  match o with
  | none => 100
  | some n => if n = 0 then 100 else n

/-- `a.asPath?.length || 0`. -/
def apLen (o : Option (List Nat)) : Nat :=
  (o.map List.length).getD 0

/-- `a.med || 0`. -/
def medVal (o : Option Nat) : Nat :=
  o.getD 0

/-- `BgpRoutingEngine.compareRoutes(a, b)` (lines 154-166): `true` iff `a`
is strictly better.  Note the guards compare the RAW fields: when
`a.localPref !== b.localPref` as raw values (e.g. an explicit 100 versus an
absent field) the function returns at the local-pref stage even if the
defaulted values tie, never reaching the AS-path or MED comparison. -/
def compareRoutes (a b : BgpRoute) : Bool :=
  if a.localPref ≠ b.localPref then decide (lpVal a.localPref > lpVal b.localPref)
  else if apLen a.asPath ≠ apLen b.asPath then decide (apLen a.asPath < apLen b.asPath)
  else if medVal a.med ≠ medVal b.med then decide (medVal a.med < medVal b.med)
  else false

/-- The loop body of `recomputeRoutes` (lines 126-139) for one candidate
route: keep per prefix the first candidate seen, replacing it only when the
newcomer is strictly better under `compareRoutes`.  The stored `peerId` of
the source is dropped: the code never reads it back. -/
def bestStep (best : List (String × BgpRoute)) (r : BgpRoute) : List (String × BgpRoute) :=
  match aget best r.pfx with
  | none => aset best r.pfx r
  | some existing => if compareRoutes r existing then aset best r.pfx r else best

/-- The `bestRoutes` map of `recomputeRoutes` (lines 122-152): iterate the
Adj-RIB-In (peers in insertion order, each peer's routes in list order),
applying `bestStep` to every candidate. -/
def bgpBestRoutes (adjRibIn : List (String × List BgpRoute)) : List (String × BgpRoute) :=
  adjRibIn.foldl (fun best kv => kv.2.foldl bestStep best) []

/-- The routing entry `recomputeRoutes` builds from one winner (lines
143-149): `metric: route.metric || 0`, administrative distance 20. -/
def bgpEntryOf (kv : String × BgpRoute) : RoutingEntry :=
  { destination := kv.1
    nextHop := kv.2.nextHop
    metric := kv.2.metric.getD 0
    protocol := "bgp"
    administrativeDistance := 20 }

/-- The second half of `recomputeRoutes`: the winners become the routing
table. -/
def bgpRecompute (adjRibIn : List (String × List BgpRoute)) : List RoutingEntry :=
  (bgpBestRoutes adjRibIn).map bgpEntryOf

/-- Specification-side helper for the theorems: the candidates for prefix
`p`, in the exact iteration order `recomputeRoutes` sees them. -/
def bgpCandidates (adjRibIn : List (String × List BgpRoute)) (p : String) : List BgpRoute :=
  ((adjRibIn.map Prod.snd).flatten).filter (fun r => r.pfx = p)

/-- Specification-side: the pairwise selection `bestStep` makes between the
incumbent `b` and the newcomer `r`. -/
def pickBest (b r : BgpRoute) : BgpRoute :=
  if compareRoutes r b then r else b

/-- Specification-side: continue best-selection from an optional incumbent
over a list of further candidates (`none` means no candidate seen yet). -/
def contBest : Option BgpRoute → List BgpRoute → Option BgpRoute
  | none, [] => none
  | none, c :: cs => some (cs.foldl pickBest c)
  | some w, cs => some (cs.foldl pickBest w)

/-- Specification-side reading of `compareRoutes` as a lexicographic strict
order: greater effective local preference first — but only when the raw
`localPref` fields differ, which is what the code's guard tests — then
shorter AS path, then smaller MED.  (`lpVal x > lpVal y` already forces the
raw fields to differ; when the raw fields differ but the effective values
tie, e.g. an explicit 100 against an absent field, neither route is better.) -/
def BetterSpec (a b : BgpRoute) : Prop :=
  lpVal a.localPref > lpVal b.localPref
  ∨ (a.localPref = b.localPref ∧ apLen a.asPath < apLen b.asPath)
  ∨ (a.localPref = b.localPref ∧ apLen a.asPath = apLen b.asPath
      ∧ medVal a.med < medVal b.med)

/-- A scheduled timer: `setTimeout` of the hold callback, or `setInterval`
of the keepalive sender (which remembers the interface it replies on). -/
inductive TimerKind where
  | hold (peerId : String)
  | keepalive (peerId : String) (iface : String)
deriving DecidableEq, Repr

/-- The per-peer record `{ state, timers: { holdTimer?, keepaliveTimer? } }`;
the timer fields hold scheduler handles. -/
structure PeerRec where
  state : String
  holdTimer : Option Nat
  keepaliveTimer : Option Nat
deriving DecidableEq, Repr

/-- A packet as built by the BGP engine (`{ type, payload: { peerId, routes? } }`).
Open and keepalive payloads carry only `peerId`; `routes` is then `[]`. -/
structure BgpPacket where
  ptype : String
  peerId : String
  routes : List BgpRoute
deriving DecidableEq, Repr

/-- Full mutable state of `BgpRoutingEngine` plus the scheduler: `pending`
are the timers currently registered with the runtime (a fired `setTimeout`
leaves it; a `setInterval` stays until cleared), `nextTimerId` mints
handles. -/
structure BgpState where
  me : String
  peers : List (String × PeerRec)
  adjRibIn : List (String × List BgpRoute)
  adjRibOut : List (String × List BgpRoute)
  routingTable : List RoutingEntry
  pending : List (Nat × TimerKind)
  nextTimerId : Nat
deriving DecidableEq, Repr

namespace Bgp

/-- `BgpRoutingEngine.init(device, topology)` (lines 22-31): binds the device
(here: stores its name) and clears `peers`, `adjRibIn`, `adjRibOut` and
`routingTable`.  It does not touch the scheduler: any previously registered
timer stays registered. -/
def init (me : String) (s : BgpState) : BgpState :=
  { s with me := me, peers := [], adjRibIn := [], adjRibOut := [], routingTable := [] }

/-- `BgpRoutingEngine.shutdown()` (lines 53-59): clears `routingTable`,
`peers`, `adjRibIn`, `adjRibOut`.  No `clearTimeout`/`clearInterval` call
appears in the body, so `pending` is unchanged: clearing the maps that held
the handles does not cancel the Node.js timers. -/
def shutdown (s : BgpState) : BgpState :=
  { s with peers := [], adjRibIn := [], adjRibOut := [], routingTable := [] }

/-- `startHoldTimer(peerId)` (lines 93-102): no-op if the peer is unknown;
otherwise `clearTimeout` any stored hold handle and schedule a fresh 90s
timeout. -/
def startHoldTimer (s : BgpState) (peerId : String) : BgpState :=
  match aget s.peers peerId with
  | none => s
  | some pr =>
    let pending :=
      match pr.holdTimer with
      | some h => s.pending.filter (fun t => !(t.1 == h))
      | none => s.pending
    { s with
      pending := pending ++ [(s.nextTimerId, TimerKind.hold peerId)]
      peers := aset s.peers peerId { pr with holdTimer := some s.nextTimerId }
      nextTimerId := s.nextTimerId + 1 }

/-- `startKeepaliveTimer(peerId, ingressInterface)` (lines 108-120):
no-op if the peer is unknown; otherwise `clearInterval` any stored keepalive
handle and schedule a fresh 30s interval replying on the ingress interface. -/
def startKeepaliveTimer (s : BgpState) (peerId : String) (iface : String) : BgpState :=
  match aget s.peers peerId with
  | none => s
  | some pr =>
    let pending :=
      match pr.keepaliveTimer with
      | some h => s.pending.filter (fun t => !(t.1 == h))
      | none => s.pending
    { s with
      pending := pending ++ [(s.nextTimerId, TimerKind.keepalive peerId iface)]
      peers := aset s.peers peerId { pr with keepaliveTimer := some s.nextTimerId }
      nextTimerId := s.nextTimerId + 1 }

/-- `processOpen(payload, ingressInterface)` (lines 61-76): set the peer
Established with a fresh (empty) timer record, start both timers, and reply
with a keepalive naming this device. -/
def processOpen (s : BgpState) (peerId : String) (iface : String) :
    BgpState × List (String × BgpPacket) :=
  let s1 := { s with
    peers := aset s.peers peerId { state := "Established", holdTimer := none, keepaliveTimer := none } }
  let s2 := startHoldTimer s1 peerId
  let s3 := startKeepaliveTimer s2 peerId iface
  (s3, [(iface, { ptype := "bgp-keepalive", peerId := s3.me, routes := [] })])

/-- `processKeepalive(payload, _)` (lines 78-84): reset the hold timer iff
the peer is known. -/
def processKeepalive (s : BgpState) (peerId : String) : BgpState :=
  match aget s.peers peerId with
  | none => s
  | some _ => startHoldTimer s peerId

/-- `processUpdate(payload, _)` (lines 86-91): wholesale-replace the peer's
Adj-RIB-In list (`payload.routes || []` is the routes argument; an absent
field is the empty list) and recompute best paths.  No session check of any
kind: the peers map is not consulted. -/
def processUpdate (s : BgpState) (peerId : String) (routes : List BgpRoute) : BgpState :=
  let adjRibIn := aset s.adjRibIn peerId routes
  { s with adjRibIn := adjRibIn, routingTable := bgpRecompute adjRibIn }

/-- `handlePacket(packet, ingressInterface)` (lines 38-47). -/
def handlePacket (s : BgpState) (pkt : BgpPacket) (iface : String) :
    BgpState × List (String × BgpPacket) :=
  if pkt.ptype = "bgp-open" then processOpen s pkt.peerId iface
  else if pkt.ptype = "bgp-keepalive" then (processKeepalive s pkt.peerId, [])
  else if pkt.ptype = "bgp-update" then (processUpdate s pkt.peerId pkt.routes, [])
  else (s, [])

/-- Firing of a scheduled timer `tid`.  Hold (a `setTimeout`, lines 97-101):
the handle leaves the pending set by firing, then the callback runs
`this.peers.delete(peerId); this.recomputeRoutes();` — note that the
callback does NOT touch `adjRibIn`.  Keepalive (a `setInterval`, lines
112-119): stays pending and sends one keepalive on the remembered
interface. -/
def fireTimer (s : BgpState) (tid : Nat) : BgpState × List (String × BgpPacket) :=
  match (s.pending.find? (fun t => t.1 == tid)).map Prod.snd with
  | none => (s, [])
  | some (TimerKind.hold peerId) =>
    ({ s with
        pending := s.pending.filter (fun t => !(t.1 == tid))
        peers := adel s.peers peerId
        routingTable := bgpRecompute s.adjRibIn }, [])
  | some (TimerKind.keepalive _ iface) =>
    (s, [(iface, { ptype := "bgp-keepalive", peerId := s.me, routes := [] })])

end Bgp

/-! ## Graph reachability (specification side, for the SPF theorems) -/

/-- A directed edge of the SPF graph: `v` is listed among `u`'s neighbors. -/
def Edge (g : List (String × LsNode)) (u v : String) : Prop :=
  v ∈ nbrs g u

/-- A walk from `s` to `v` of accumulated cost `d` (10 per hop, the code's
fixed edge cost). -/
inductive Walk (g : List (String × LsNode)) : String → String → Nat → Prop where
  | nil (v : String) : Walk g v v 0
  | cons {s n v : String} {d : Nat} : Edge g s n → Walk g n v d → Walk g s v (d + 10)

/-- `v` is reachable from `s` in the SPF graph. -/
def Reach (g : List (String × LsNode)) (s v : String) : Prop :=
  ∃ d, Walk g s v d

/-- Loop invariant of the Dijkstra `while` loop: `visited` is the list of
extracted nodes, `queue` the not-yet-extracted ones. -/
structure DInv (g : List (String × LsNode)) (me : String) (st : DState)
    (visited queue : List String) : Prop where
  hQK : ∀ x ∈ queue, x ∈ akeys g
  hQN : queue.Nodup
  hVN : visited.Nodup
  hVK : ∀ x ∈ visited, x ∈ akeys g
  hPart : ∀ x ∈ akeys g, (x ∈ queue ↔ x ∉ visited)
  hVfin : ∀ a ∈ visited, ∃ da, st.dist a = some da
  hZ : st.dist me = some 0
  hS : ∀ v d, st.dist v = some d → Walk g me v d
  hP : ∀ v p, st.prev v = some p → p ∈ visited ∧ Edge g p v
      ∧ ∃ dp, st.dist p = some dp ∧ st.dist v = some (dp + 10)
  hP2 : ∀ v d, st.dist v = some d → v ≠ me → ∃ p, st.prev v = some p
  hM : ∀ a ∈ visited, ∀ da, st.dist a = some da →
      ∀ b ∈ queue, ∀ db, st.dist b = some db → da ≤ db
  hT : ∀ u ∈ visited, ∀ du, st.dist u = some du →
      ∀ v ∈ nbrs g u, ∃ dv, st.dist v = some dv ∧ dv ≤ du + 10
  hB : ∀ v d, st.dist v = some d → d ≤ 10 * visited.length

/-- What holds of the distance and predecessor maps once the loop exits. -/
structure DTerminal (g : List (String × LsNode)) (me : String) (st : DState) : Prop where
  hZ : st.dist me = some 0
  hS : ∀ v d, st.dist v = some d → Walk g me v d
  hP : ∀ v p, st.prev v = some p → p ∈ akeys g ∧ Edge g p v
      ∧ ∃ dp, st.dist p = some dp ∧ st.dist v = some (dp + 10)
  hP2 : ∀ v d, st.dist v = some d → v ≠ me → ∃ p, st.prev v = some p
  hT : ∀ u ∈ akeys g, ∀ du, st.dist u = some du →
      ∀ v ∈ nbrs g u, ∃ dv, st.dist v = some dv ∧ dv ≤ du + 10
  hB : ∀ v d, st.dist v = some d → d ≤ 10 * (akeys g).length

/-- What one full relaxation pass (`relaxAll` for the freshly visited `u`
with frozen distance `du`) guarantees, relating the state before (`st`) and
after (`st'`). -/
structure RelaxOut (g : List (String × LsNode)) (me u : String) (du : Nat)
    (visited : List String) (vs : List String) (st st' : DState) : Prop where
  rdu : st'.dist u = some du
  rZ : st'.dist me = some 0
  rS : ∀ v d, st'.dist v = some d → Walk g me v d
  rP : ∀ v p, st'.prev v = some p → p ∈ visited ∧ Edge g p v
      ∧ ∃ dp, st'.dist p = some dp ∧ st'.dist v = some (dp + 10)
  rP2 : ∀ v d, st'.dist v = some d → v ≠ me → ∃ p, st'.prev v = some p
  rVle : ∀ a ∈ visited, ∀ da, st'.dist a = some da → da ≤ du
  rVfin : ∀ a ∈ visited, ∃ da, st'.dist a = some da
  rB : ∀ v d, st'.dist v = some d → d ≤ 10 * visited.length
  rMono : ∀ x d, st.dist x = some d → ∃ e, e ≤ d ∧ st'.dist x = some e
  rNew : ∀ x d, st'.dist x = some d → st.dist x = some d ∨ d = du + 10
  rNbr : ∀ v ∈ vs, visited.contains v = false →
      ∃ dv, st'.dist v = some dv ∧ dv ≤ du + 10
  rFroz : ∀ x ∈ visited, st'.dist x = st.dist x

/-- The facts holding of the mutable state before (and, re-established, after
each step of) the relaxation pass for the freshly visited `u`. -/
structure RelaxPre (g : List (String × LsNode)) (me u : String) (du : Nat)
    (visited : List String) (st : DState) : Prop where
  pdu : st.dist u = some du
  pZ : st.dist me = some 0
  pS : ∀ v d, st.dist v = some d → Walk g me v d
  pP : ∀ v p, st.prev v = some p → p ∈ visited ∧ Edge g p v
      ∧ ∃ dp, st.dist p = some dp ∧ st.dist v = some (dp + 10)
  pP2 : ∀ v d, st.dist v = some d → v ≠ me → ∃ p, st.prev v = some p
  pVle : ∀ a ∈ visited, ∀ da, st.dist a = some da → da ≤ du
  pVfin : ∀ a ∈ visited, ∃ da, st.dist a = some da
  pB : ∀ v d, st.dist v = some d → d ≤ 10 * visited.length

/-! ## Concrete inputs used by the counterexamples, evaluations and witnesses -/

/-- Static route 10.0.0.0/24, administrative distance 1. -/
def exStaticEntry : RoutingEntry :=
  { destination := "10.0.0.0/24", nextHop := "192.168.1.1", metric := 0,
    protocol := "static", administrativeDistance := 1 }

/-- OSPF route to the same prefix, administrative distance 110. -/
def exOspfEntry : RoutingEntry :=
  { destination := "10.0.0.0/24", nextHop := "10.0.1.2", metric := 20,
    protocol := "ospf", administrativeDistance := 110 }

/-- An LSDB whose node X is unreachable from R1 (no adjacency anywhere). -/
def exIsolatedLsdb : List (String × LsaPayload) :=
  [("R1", { routerId := "R1", neighbors := [], prefixes := [], sequenceNumber := 1 }),
   ("X", { routerId := "X", neighbors := [], prefixes := ["10.9.0.0/24"], sequenceNumber := 1 })]

/-- The three-node line R1 - R2 - R3, each owning one prefix. -/
def exLineLsdb : List (String × LsaPayload) :=
  [("R1", { routerId := "R1", neighbors := ["R2"], prefixes := ["10.1.0.0/24"], sequenceNumber := 1 }),
   ("R2", { routerId := "R2", neighbors := ["R1", "R3"], prefixes := ["10.2.0.0/24"], sequenceNumber := 1 }),
   ("R3", { routerId := "R3", neighbors := ["R2"], prefixes := ["10.3.0.0/24"], sequenceNumber := 1 })]

/-- Link-state engine state with two adjacent (up) interfaces and a stored
record for R2 at sequence number 1. -/
def exLsState : LsState :=
  { neighbors := [("if1", true), ("if2", true)]
    lsdb := [("R2", { routerId := "R2", neighbors := [], prefixes := [], sequenceNumber := 1 })]
    routingTable := [] }

/-- A newer record from R2 (sequence number 2), as flooded to us on if1. -/
def exNewerLsa : LsaPayload :=
  { routerId := "R2", neighbors := ["R1"], prefixes := ["10.2.0.0/24"], sequenceNumber := 2 }

/-- A stale record from R2 (sequence number 1, not strictly greater). -/
def exStaleLsa : LsaPayload :=
  { routerId := "R2", neighbors := ["R1"], prefixes := ["10.2.0.0/24"], sequenceNumber := 1 }

/-- Candidate with an explicit localPref of 100 and a five-hop AS path. -/
def exRouteA : BgpRoute :=
  { pfx := "10.0.0.0/24", nextHop := "192.0.2.1", metric := none,
    localPref := some 100, asPath := some [65001, 65002, 65003, 65004, 65005], med := none }

/-- Candidate with an absent localPref (defaults to 100) and a one-hop AS
path. -/
def exRouteB : BgpRoute :=
  { pfx := "10.0.0.0/24", nextHop := "192.0.2.2", metric := none,
    localPref := none, asPath := some [65009], med := none }

/-- The Adj-RIB-In on which the C3 counterexample evaluates best-path
selection. -/
def exRibGuard : List (String × List BgpRoute) :=
  [("peer1", [exRouteA, exRouteB])]

/-- The spec's own example: localPref 200 against localPref 100. -/
def exRoute200 : BgpRoute :=
  { pfx := "10.0.0.0/24", nextHop := "192.0.2.1", metric := none,
    localPref := some 200, asPath := some [65001, 65002], med := some 0 }

/-- The losing localPref 100 route of the spec's example. -/
def exRoute100 : BgpRoute :=
  { pfx := "10.0.0.0/24", nextHop := "192.0.2.2", metric := none,
    localPref := some 100, asPath := some [65002], med := some 0 }

/-- Adj-RIB-In for the spec's localPref example. -/
def exRibLocalPref : List (String × List BgpRoute) :=
  [("peer1", [exRoute100, exRoute200])]

/-- A plain BGP route learned from a peer. -/
def exBgpRoute : BgpRoute :=
  { pfx := "10.0.0.0/24", nextHop := "192.0.2.9", metric := none,
    localPref := some 100, asPath := some [65001], med := none }

/-- The all-empty BGP engine state (as constructed, before `init`). -/
def exBgpEmpty : BgpState :=
  { me := "", peers := [], adjRibIn := [], adjRibOut := [], routingTable := [],
    pending := [], nextTimerId := 0 }

/-- Engine on R1 after `init`. -/
def exBgpInit : BgpState :=
  Bgp.init "R1" exBgpEmpty

/-- After processing a BGP Open from peer2 arriving on if0: peer Established,
hold timer (id 0) and keepalive interval (id 1) scheduled. -/
def exBgpOpened : BgpState :=
  (Bgp.processOpen exBgpInit "peer2" "if0").1

/-- After peer2's Update installing one route. -/
def exBgpUpdated : BgpState :=
  Bgp.processUpdate exBgpOpened "peer2" [exBgpRoute]

/-- A registry holding one device "A" that already has an interface. -/
def exTopology : TopologyManager :=
  { devices := [("A",
      { id := "A", name := "A",
        interfaces := [("eth0", { name := "eth0", ipAddresses := ["10.0.0.1/24"], status := "up" })],
        routingTable := [] })] }

/-! ## Association-list lemmas -/

theorem aget_aset_self {β : Type} (m : List (String × β)) (k : String) (v : β) :
    aget (aset m k v) k = some v := by
  induction m with
  | nil => simp [aset, aget]
  | cons kv rest ih =>
    obtain ⟨k', v'⟩ := kv
    by_cases h : k' = k
    · simp [aset, h, aget]
    · simp [aset, h, aget, ih]

theorem aget_aset_ne {β : Type} (m : List (String × β)) (k k' : String) (v : β)
    (h : k ≠ k') : aget (aset m k v) k' = aget m k' := by
  have h' : ¬(k' = k) := fun hh => h hh.symm
  induction m with
  | nil => simp [aset, aget, h]
  | cons kv rest ih =>
    obtain ⟨k1, v1⟩ := kv
    by_cases h1 : k1 = k
    · subst h1
      simp [aset, aget, h, h']
    · by_cases h2 : k1 = k'
      · simp [aset, h1, aget, h2, h']
      · simp [aset, h1, aget, h2, ih]

/-! ## C1 — device route aggregation -/

/-- C1: refuted on the code.  `Device.updateRoutingTable` concatenates all
engines' tables; with a Static (distance 1) and an OSPF (distance 110) route
to the identical prefix 10.0.0.0/24 the recomputed device table keeps BOTH
entries — the higher-distance OSPF entry is not removed, contradicting the
claim that only the lowest-distance candidate per prefix survives. -/
theorem c1_aggregation_keeps_higher_distance_route :
    updateRoutingTable [[exStaticEntry], [exOspfEntry]] = [exStaticEntry, exOspfEntry]
    ∧ exOspfEntry ∈ updateRoutingTable [[exStaticEntry], [exOspfEntry]]
    ∧ exStaticEntry.destination = exOspfEntry.destination
    ∧ exStaticEntry.administrativeDistance < exOspfEntry.administrativeDistance := by
  decide

/-! ## C4 — packet sending -/

/-- C4: refuted on the code.  `Device.sendPacket` is a logging stub (its body
is a `console.log` and a TODO): it performs no interface lookup, no
link-status test, and above all no delivery — for EVERY device, interface
name and packet, including an interface whose link is up and whose peer
device runs a matching engine, the set of deliveries is empty, contradicting
the claim's "otherwise delivers the packet to the peer interface's owning
device". -/
theorem c4_sendPacket_delivers_nothing (d : Device) (interfaceId : String) (p : Packet) :
    Device.sendPacket d interfaceId p = [] := rfl

/-! ## C5 — link-state flooding -/

/-- C5: the acceptance condition holds (strictly greater sequence number, or
no stored record), acceptance triggers SPF recomputation — but the accepted
record is reflooded to EVERY adjacent interface, INCLUDING the one it
arrived on (here if1): `processLsa`/`processLsp` never receives the ingress
interface, so it cannot be excluded.  Evaluated for both engines; the stale
record (equal sequence number) is rejected with no state change and no
emission. -/
theorem c5_reflood_includes_ingress :
    (Ospf.processLsa "R1" exLsState exNewerLsa).2.map LsEmission.iface = ["if1", "if2"]
    ∧ (Isis.processLsp "R1" exLsState exNewerLsa).2.map LsEmission.iface = ["if1", "if2"]
    ∧ (Ospf.processLsa "R1" exLsState exNewerLsa).1.routingTable
        = spfCompute "ospf" 110 "R1" (aset exLsState.lsdb "R2" exNewerLsa)
    ∧ (Ospf.processLsa "R1" exLsState exNewerLsa).1.lsdb = aset exLsState.lsdb "R2" exNewerLsa
    ∧ Ospf.processLsa "R1" exLsState exStaleLsa = (exLsState, [])
    ∧ Isis.processLsp "R1" exLsState exStaleLsa = (exLsState, []) := by
  decide

/-! ## C6 — BGP hold-timer expiry -/

/-- C6: refuted on the code.  After peer2's session is Established and its
Update installed a route to 10.0.0.0/24, firing the hold timer (id 0) runs
`this.peers.delete(peerId); this.recomputeRoutes();` — the peer record is
deleted, but the peer's Adj-RIB-In entries are NOT discarded, so the rerun
best-path selection reinstalls the expired peer's route: it remains in the
routing table, contradicting the claim. -/
theorem c6_hold_expiry_keeps_adjribin_routes :
    (Bgp.fireTimer exBgpUpdated 0).1.peers = []
    ∧ (Bgp.fireTimer exBgpUpdated 0).1.adjRibIn = [("peer2", [exBgpRoute])]
    ∧ (Bgp.fireTimer exBgpUpdated 0).1.routingTable
        = [{ destination := "10.0.0.0/24", nextHop := "192.0.2.9", metric := 0,
             protocol := "bgp", administrativeDistance := 20 }] := by
  decide

/-! ## C7 — engine shutdown -/

/-- C7: refuted on the code.  `BgpRoutingEngine.shutdown()` clears the
`peers`, `adjRibIn` and `adjRibOut` maps and the routing table but never
calls `clearTimeout`/`clearInterval`, so the hold timeout (id 0) and the
keepalive interval (id 1) registered by `processOpen` stay scheduled; when
the keepalive interval next fires the engine still emits a keepalive packet
— after shutdown — contradicting the claim. -/
theorem c7_shutdown_leaves_timers_running :
    (Bgp.shutdown exBgpOpened).pending
      = [(0, TimerKind.hold "peer2"), (1, TimerKind.keepalive "peer2" "if0")]
    ∧ (Bgp.fireTimer (Bgp.shutdown exBgpOpened) 1).2
      = [("if0", { ptype := "bgp-keepalive", peerId := "R1", routes := [] })] := by
  decide

/-! ## C8 — addDevice on a duplicate id -/

/-- C8 counterexample: calling `addDevice` with the id of an existing device
(here "A", which already has an interface eth0) raises no error and CHANGES
the registry: the stored device is replaced by a fresh empty `new Device`,
so neither "fails with a duplicate-id error" nor "state unchanged" holds. -/
theorem c8_addDevice_replaces_existing :
    (addDevice exTopology "A").1 ≠ exTopology
    ∧ aget (addDevice exTopology "A").1.devices "A" = some (Device.new "A")
    ∧ aget exTopology.devices "A" ≠ some (Device.new "A") := by
  decide

/-- C8 amended: `TopologyManager.addDevice(id)` performs no duplicate check
and has no error path: for every registry and id it (totally) stores a fresh
`new Device(id)` under `id` — replacing any existing device with that id —
returns that device, and leaves every other id's binding unchanged. -/
theorem c8_addDevice_total_replace (tm : TopologyManager) (id : String) :
    (addDevice tm id).1.devices = aset tm.devices id (Device.new id)
    ∧ (addDevice tm id).2 = Device.new id
    ∧ aget (addDevice tm id).1.devices id = some (Device.new id)
    ∧ ∀ k, k ≠ id → aget (addDevice tm id).1.devices k = aget tm.devices k := by
  refine ⟨rfl, rfl, aget_aset_self tm.devices id (Device.new id), fun k hk => ?_⟩
  exact aget_aset_ne tm.devices id k (Device.new id) (fun h => hk h.symm)

/-- C8 amended, witness: the general theorem applied to the concrete
registry holding device "A" and the distinct key "B". -/
theorem c8_addDevice_total_replace_witness :
    ("B" : String) ≠ "A"
    ∧ aget (addDevice exTopology "A").1.devices "B" = aget exTopology.devices "B" :=
  ⟨by decide, (c8_addDevice_total_replace exTopology "A").2.2.2 "B" (by decide)⟩

/-! ## C9 — engine init -/

/-- C9 counterexample: `StaticRoutingEngine.init` only rebinds the device
and registry; it does not clear `staticRoutes`.  Initializing an engine that
holds a route leaves the route in place, while a single init on a fresh
engine yields an empty table — so init does not "reset all of the engine's
internal state". -/
theorem c9_static_init_keeps_routes :
    staticInit [exStaticEntry] = [exStaticEntry]
    ∧ staticInit [exStaticEntry] ≠ staticInit [] := by
  decide

/-- C9 amended: the OSPF and IS-IS engines' `init` resets the neighbor /
adjacency table, the database and the routing table; the BGP engine's `init`
resets the peer table, both RIBs and the routing table (pending timers are
outside the listed state and survive); the Static engine's `init` leaves its
static routes untouched.  For every engine, `init` is idempotent: a second
call leaves exactly the state of a single call, and since `init` starts no
timers it creates no duplicate ones. -/
theorem c9_init_reset_and_idempotent :
    (∀ s : LsState, Ospf.init s = { neighbors := [], lsdb := [], routingTable := [] }
      ∧ Ospf.init (Ospf.init s) = Ospf.init s)
    ∧ (∀ s : LsState, Isis.init s = { neighbors := [], lsdb := [], routingTable := [] }
      ∧ Isis.init (Isis.init s) = Isis.init s)
    ∧ (∀ (me : String) (s : BgpState),
        (Bgp.init me s).peers = [] ∧ (Bgp.init me s).adjRibIn = []
        ∧ (Bgp.init me s).adjRibOut = [] ∧ (Bgp.init me s).routingTable = []
        ∧ (Bgp.init me s).pending = s.pending
        ∧ Bgp.init me (Bgp.init me s) = Bgp.init me s)
    ∧ (∀ routes : List RoutingEntry, staticInit routes = routes
      ∧ staticInit (staticInit routes) = staticInit routes) := by
  exact ⟨fun _ => ⟨rfl, rfl⟩, fun _ => ⟨rfl, rfl⟩,
    fun _ _ => ⟨rfl, rfl, rfl, rfl, rfl, rfl⟩, fun _ => ⟨rfl, rfl⟩⟩

/-! ## C10 — BGP updates without a session -/

/-- C10 confirmed: `handlePacket` dispatches a `bgp-update` to
`processUpdate`, which never consults the peer-session map: for EVERY engine
state and peer id the Adj-RIB-In list of that peer id is replaced wholesale
by the packet's routes and best-path selection is rerun immediately, all
other state unchanged and nothing emitted.  Concretely, on a freshly
initialized engine with no peers at all, an update from "rogue" installs its
route into the routing table. -/
theorem c10_update_accepted_without_session (s : BgpState) (pid : String)
    (routes : List BgpRoute) (iface : String) :
    (Bgp.handlePacket s { ptype := "bgp-update", peerId := pid, routes := routes } iface).1
      = { s with adjRibIn := aset s.adjRibIn pid routes
                 routingTable := bgpRecompute (aset s.adjRibIn pid routes) }
    ∧ (Bgp.handlePacket s { ptype := "bgp-update", peerId := pid, routes := routes } iface).2 = []
    ∧ exBgpInit.peers = []
    ∧ (Bgp.handlePacket exBgpInit
          { ptype := "bgp-update", peerId := "rogue", routes := [exBgpRoute] } "if0").1.routingTable
        = [{ destination := "10.0.0.0/24", nextHop := "192.0.2.9", metric := 0,
             protocol := "bgp", administrativeDistance := 20 }] := by
  refine ⟨?_, ?_, rfl, by decide⟩
  · simp [Bgp.handlePacket, Bgp.processUpdate]
  · simp [Bgp.handlePacket]

/-! ## C3 — BGP best-path selection -/

theorem compareRoutes_irrefl (a : BgpRoute) : compareRoutes a a = false := by
  simp [compareRoutes]

theorem compareRoutes_iff (a b : BgpRoute) :
    compareRoutes a b = true ↔ BetterSpec a b := by
  unfold compareRoutes BetterSpec
  by_cases e1 : a.localPref = b.localPref
  · by_cases e2 : apLen a.asPath = apLen b.asPath
    · by_cases e3 : medVal a.med = medVal b.med
      · simp [e1, e2, e3]
      · simp [e1, e2, e3]
    · simp [e1, e2]
  · simp [e1]

theorem betterSpec_trans {a b c : BgpRoute} (h1 : BetterSpec a b) (h2 : BetterSpec b c) :
    BetterSpec a c := by
  rcases h1 with h1 | ⟨e1, h1⟩ | ⟨e1, f1, h1⟩ <;>
    rcases h2 with h2 | ⟨e2, h2⟩ | ⟨e2, f2, h2⟩
  · exact Or.inl (Nat.lt_trans h2 h1)
  · have hbc : lpVal b.localPref = lpVal c.localPref := by rw [e2]
    exact Or.inl (by omega)
  · have hbc : lpVal b.localPref = lpVal c.localPref := by rw [e2]
    exact Or.inl (by omega)
  · have hab : lpVal a.localPref = lpVal b.localPref := by rw [e1]
    exact Or.inl (by omega)
  · exact Or.inr (Or.inl ⟨e1.trans e2, Nat.lt_trans h1 h2⟩)
  · exact Or.inr (Or.inl ⟨e1.trans e2, by omega⟩)
  · have hab : lpVal a.localPref = lpVal b.localPref := by rw [e1]
    exact Or.inl (by omega)
  · exact Or.inr (Or.inl ⟨e1.trans e2, by omega⟩)
  · exact Or.inr (Or.inr ⟨e1.trans e2, f1.trans f2, Nat.lt_trans h1 h2⟩)

theorem compareRoutes_trans {a b c : BgpRoute} (h1 : compareRoutes a b = true)
    (h2 : compareRoutes b c = true) : compareRoutes a c = true :=
  (compareRoutes_iff a c).2
    (betterSpec_trans ((compareRoutes_iff a b).1 h1) ((compareRoutes_iff b c).1 h2))

/-- The foldl of `pickBest` over candidates returns one of them, beats the
seed unless it is the seed, and is beaten by no candidate. -/
theorem pickBest_fold_spec (cs : List BgpRoute) (c : BgpRoute) :
    (cs.foldl pickBest c = c ∨ cs.foldl pickBest c ∈ cs)
    ∧ (cs.foldl pickBest c = c ∨ compareRoutes (cs.foldl pickBest c) c = true)
    ∧ (∀ x, (x = c ∨ x ∈ cs) → compareRoutes x (cs.foldl pickBest c) = false) := by
  induction cs generalizing c with
  | nil =>
    refine ⟨Or.inl rfl, Or.inl rfl, ?_⟩
    rintro x (rfl | h)
    · exact compareRoutes_irrefl x
    · cases h
  | cons r rest ih =>
    obtain ⟨m1, m2, m3⟩ := ih (pickBest c r)
    simp only [List.foldl_cons]
    by_cases hb : compareRoutes r c = true
    · have hc : pickBest c r = r := by simp [pickBest, hb]
      rw [hc] at m1 m2 m3
      refine ⟨?_, ?_, ?_⟩
      · rcases m1 with h | h
        · exact Or.inr (by rw [hc, h]; exact List.mem_cons_self r rest)
        · exact Or.inr (by rw [hc]; exact List.mem_cons_of_mem r h)
      · rcases m2 with h | h
        · rw [hc, h]; exact Or.inr hb
        · rw [hc]; exact Or.inr (compareRoutes_trans h hb)
      · rw [hc]
        rintro x (rfl | hx)
        · rcases m2 with h | h
          · rw [h]
            by_cases hcw : compareRoutes x r = true
            · have : compareRoutes x x = true := compareRoutes_trans hcw hb
              rw [compareRoutes_irrefl] at this
              cases this
            · exact Bool.eq_false_iff.mpr hcw
          · by_cases hcw : compareRoutes x (rest.foldl pickBest r) = true
            · have h1 : compareRoutes x r = true :=
                compareRoutes_trans hcw h
              have : compareRoutes x x = true := compareRoutes_trans h1 hb
              rw [compareRoutes_irrefl] at this
              cases this
            · exact Bool.eq_false_iff.mpr hcw
        · rcases List.mem_cons.mp hx with rfl | hx
          · exact m3 x (Or.inl rfl)
          · exact m3 x (Or.inr hx)
    · have hc : pickBest c r = c := by simp [pickBest, hb]
      rw [hc] at m1 m2 m3
      refine ⟨?_, ?_, ?_⟩
      · rcases m1 with h | h
        · exact Or.inl (by rw [hc, h])
        · exact Or.inr (by rw [hc]; exact List.mem_cons_of_mem r h)
      · rw [hc]; exact m2
      · rw [hc]
        rintro x (rfl | hx)
        · exact m3 x (Or.inl rfl)
        · rcases List.mem_cons.mp hx with rfl | hx
          · by_cases hcw : compareRoutes x (rest.foldl pickBest c) = true
            · rcases m2 with h | h
              · rw [h] at hcw
                exact absurd hcw hb
              · have : compareRoutes x c = true := compareRoutes_trans hcw h
                exact absurd this hb
            · exact Bool.eq_false_iff.mpr hcw
          · exact m3 x (Or.inr hx)

theorem contBest_nil (o : Option BgpRoute) : contBest o [] = o := by
  cases o <;> rfl

theorem aget_bestStep_ne (m : List (String × BgpRoute)) (r : BgpRoute) (p : String)
    (h : r.pfx ≠ p) : aget (bestStep m r) p = aget m p := by
  unfold bestStep
  cases hg : aget m r.pfx with
  | none => exact aget_aset_ne m r.pfx p r h
  | some ex =>
    by_cases hb : compareRoutes r ex
    · simp only [hb, if_true]
      exact aget_aset_ne m r.pfx p r h
    · simp [hb]

theorem foldl_bestStep_get (cs : List BgpRoute) (m : List (String × BgpRoute)) (p : String) :
    aget (cs.foldl bestStep m) p = contBest (aget m p) (cs.filter (fun r => r.pfx = p)) := by
  induction cs generalizing m with
  | nil => simp [contBest_nil]
  | cons r rest ih =>
    simp only [List.foldl_cons, List.filter_cons]
    by_cases hp : r.pfx = p
    · subst hp
      simp only [decide_True, if_true, decide_eq_true_eq, if_pos rfl]
      rw [ih]
      cases hg : aget m r.pfx with
      | none =>
        have hstep : aget (bestStep m r) r.pfx = some r := by
          unfold bestStep
          rw [hg]
          exact aget_aset_self m r.pfx r
        rw [hstep]
        rfl
      | some ex =>
        have hstep : aget (bestStep m r) r.pfx = some (pickBest ex r) := by
          unfold bestStep pickBest
          rw [hg]
          by_cases hb : compareRoutes r ex
          · simp [hb, aget_aset_self]
          · simp [hb, hg]
        rw [hstep]
        rfl
    · rw [ih, aget_bestStep_ne m r p hp]
      simp [hp]

theorem mem_akeys_iff_aget {β : Type} (m : List (String × β)) (p : String) :
    p ∈ akeys m ↔ aget m p ≠ none := by
  induction m with
  | nil => simp [akeys, aget]
  | cons kv rest ih =>
    obtain ⟨k, v⟩ := kv
    show p ∈ k :: akeys rest ↔ _
    rw [List.mem_cons, ih]
    by_cases h : k = p
    · subst h
      simp [aget]
    · have h' : ¬(p = k) := fun hh => h hh.symm
      simp [aget, h, h']

theorem akeys_aset_new {β : Type} (m : List (String × β)) (k : String) (v : β)
    (h : aget m k = none) : akeys (aset m k v) = akeys m ++ [k] := by
  induction m with
  | nil => simp [aset, akeys]
  | cons kv rest ih =>
    obtain ⟨k1, v1⟩ := kv
    by_cases h1 : k1 = k
    · subst h1
      simp [aget] at h
    · have h2 : aget rest k = none := by simpa [aget, h1] using h
      have hs : aset ((k1, v1) :: rest) k v = (k1, v1) :: aset rest k v := by
        simp [aset, h1]
      rw [hs]
      show k1 :: akeys (aset rest k v) = akeys ((k1, v1) :: rest) ++ [k]
      rw [ih h2]
      rfl

theorem akeys_aset_mem {β : Type} (m : List (String × β)) (k : String) (v : β)
    (h : aget m k ≠ none) : akeys (aset m k v) = akeys m := by
  induction m with
  | nil => simp [aget] at h
  | cons kv rest ih =>
    obtain ⟨k1, v1⟩ := kv
    by_cases h1 : k1 = k
    · subst h1
      simp [aset, akeys]
    · have h2 : aget rest k ≠ none := by simpa [aget, h1] using h
      have hs : aset ((k1, v1) :: rest) k v = (k1, v1) :: aset rest k v := by
        simp [aset, h1]
      rw [hs]
      show k1 :: akeys (aset rest k v) = akeys ((k1, v1) :: rest)
      rw [ih h2]
      rfl

theorem nodup_akeys_aset {β : Type} (m : List (String × β)) (k : String) (v : β)
    (h : (akeys m).Nodup) : (akeys (aset m k v)).Nodup := by
  cases hg : aget m k with
  | none =>
    rw [akeys_aset_new m k v hg]
    have hk : k ∉ akeys m := by
      rw [mem_akeys_iff_aget]
      simp [hg]
    simp [List.nodup_append, h, hk]
  | some w =>
    rw [akeys_aset_mem m k v (by simp [hg])]
    exact h

theorem nodup_akeys_bestStep (m : List (String × BgpRoute)) (r : BgpRoute)
    (h : (akeys m).Nodup) : (akeys (bestStep m r)).Nodup := by
  unfold bestStep
  cases aget m r.pfx with
  | none => exact nodup_akeys_aset m r.pfx r h
  | some ex =>
    by_cases hb : compareRoutes r ex
    · simp only [hb, if_true]
      exact nodup_akeys_aset m r.pfx r h
    · simp [hb, h]

theorem nodup_akeys_foldl_bestStep (cs : List BgpRoute) (m : List (String × BgpRoute))
    (h : (akeys m).Nodup) : (akeys (cs.foldl bestStep m)).Nodup := by
  induction cs generalizing m with
  | nil => exact h
  | cons r rest ih => exact ih (bestStep m r) (nodup_akeys_bestStep m r h)

theorem filter_keys_nil {β : Type} (m : List (String × β)) (p : String)
    (h : p ∉ akeys m) : m.filter (fun kv => kv.1 = p) = [] := by
  induction m with
  | nil => rfl
  | cons kv rest ih =>
    obtain ⟨k, v⟩ := kv
    simp only [akeys, List.map_cons, List.mem_cons, not_or] at h
    have hk : ¬(k = p) := fun hh => h.1 hh.symm
    simp [List.filter_cons, hk, ih h.2]

theorem filter_keys_single {β : Type} (m : List (String × β)) (p : String) (w : β)
    (hn : (akeys m).Nodup) (h : aget m p = some w) :
    m.filter (fun kv => kv.1 = p) = [(p, w)] := by
  induction m with
  | nil => simp [aget] at h
  | cons kv rest ih =>
    obtain ⟨k, v⟩ := kv
    simp only [akeys, List.map_cons, List.nodup_cons] at hn
    by_cases h1 : k = p
    · subst h1
      have hv : v = w := by simpa [aget] using h
      subst hv
      have hrest : rest.filter (fun kv => kv.1 = k) = [] := filter_keys_nil rest k hn.1
      simp [List.filter_cons, hrest]
    · have h2 : aget rest p = some w := by simpa [aget, h1] using h
      simp [List.filter_cons, h1, ih hn.2 h2]

theorem bgpBestRoutes_eq (adjRibIn : List (String × List BgpRoute)) :
    bgpBestRoutes adjRibIn = ((adjRibIn.map Prod.snd).flatten).foldl bestStep [] := by
  unfold bgpBestRoutes
  rw [List.foldl_flatten, List.foldl_map]

theorem aget_bgpBestRoutes (adjRibIn : List (String × List BgpRoute)) (p : String) :
    aget (bgpBestRoutes adjRibIn) p = contBest none (bgpCandidates adjRibIn p) := by
  rw [bgpBestRoutes_eq, foldl_bestStep_get]
  rfl

theorem nodup_bgpBestRoutes (adjRibIn : List (String × List BgpRoute)) :
    (akeys (bgpBestRoutes adjRibIn)).Nodup := by
  rw [bgpBestRoutes_eq]
  exact nodup_akeys_foldl_bestStep _ [] (by simp [akeys])

theorem bgp_filter_map_entry (l : List (String × BgpRoute)) (p : String) :
    (l.map bgpEntryOf).filter (fun e => e.destination = p)
      = (l.filter (fun kv => kv.1 = p)).map bgpEntryOf := by
  induction l with
  | nil => rfl
  | cons kv rest ih =>
    by_cases h : kv.1 = p
    · simp [List.filter_cons, bgpEntryOf, h, ih]
    · simp [List.filter_cons, bgpEntryOf, h, ih]

/-- C3 counterexample: with an explicit localPref of 100 (exRouteA, five-hop
AS path) against an absent localPref (exRouteB, defaulting to 100, one-hop
AS path), the claim's rule — routes tied on (defaulted) local preference are
separated by AS-path length — would select exRouteB; the code's guard
`a.localPref !== b.localPref` compares the RAW fields, sees them differ,
returns at the local-pref stage with neither route better, and so keeps the
first candidate exRouteA: the selected next hop is 192.0.2.1, not
192.0.2.2, refuting the claim at this input. -/
theorem c3_localpref_guard_skips_aspath :
    lpVal exRouteA.localPref = lpVal exRouteB.localPref
    ∧ apLen exRouteB.asPath < apLen exRouteA.asPath
    ∧ exRouteA.nextHop = "192.0.2.1"
    ∧ exRouteB.nextHop = "192.0.2.2"
    ∧ bgpRecompute exRibGuard
        = [{ destination := "10.0.0.0/24", nextHop := "192.0.2.1", metric := 0,
             protocol := "bgp", administrativeDistance := 20 }] := by
  decide

/-- C3 amended: best-path selection groups the Adj-RIB-In candidates by
prefix (peers in insertion order, routes in list order) and keeps, per
prefix, the fold that starts from the first candidate and replaces the
incumbent only by a strictly better route under `compareRoutes`;
`compareRoutes` is the lexicographic comparison by greater effective
local preference (absent or 0 treated as 100) — applied only when the raw
localPref fields differ, so raw-different-but-effectively-tied routes tie
immediately —, then shorter AS path, then smaller MED (each defaulted), as
`BetterSpec` states.  The kept route is a candidate that no candidate
strictly beats; on a complete tie the earlier candidate in iteration order
survives, with no reference to any previously selected route
(`bgpRecompute` is a pure function of the Adj-RIB-In).  Each prefix with
candidates yields exactly one entry, with that route's next hop, metric
(default 0) and administrative distance 20; prefixes without candidates get
none. -/
theorem c3_best_path_characterization (adjRibIn : List (String × List BgpRoute)) :
    (∀ x y : BgpRoute, compareRoutes x y = true ↔ BetterSpec x y)
    ∧ (∀ p, bgpCandidates adjRibIn p = [] →
        ∀ e ∈ bgpRecompute adjRibIn, e.destination ≠ p)
    ∧ (∀ p c cs, bgpCandidates adjRibIn p = c :: cs →
        ∃ w, w = cs.foldl pickBest c
          ∧ (w = c ∨ w ∈ cs)
          ∧ (∀ x, (x = c ∨ x ∈ cs) → compareRoutes x w = false)
          ∧ (bgpRecompute adjRibIn).filter (fun e => e.destination = p)
              = [bgpEntryOf (p, w)]) := by
  refine ⟨compareRoutes_iff, ?_, ?_⟩
  · intro p hp e he hd
    have hget : aget (bgpBestRoutes adjRibIn) p = none := by
      rw [aget_bgpBestRoutes, hp]
      rfl
    have hpk : p ∉ akeys (bgpBestRoutes adjRibIn) := by
      rw [mem_akeys_iff_aget]
      simp [hget]
    unfold bgpRecompute at he
    rcases List.mem_map.mp he with ⟨kv, hkv, hev⟩
    apply hpk
    have : kv.1 = p := by
      rw [← hd, ← hev]
      rfl
    rw [← this]
    exact List.mem_map_of_mem Prod.fst hkv
  · intro p c cs hp
    refine ⟨cs.foldl pickBest c, rfl, (pickBest_fold_spec cs c).1,
      (pickBest_fold_spec cs c).2.2, ?_⟩
    have hget : aget (bgpBestRoutes adjRibIn) p = some (cs.foldl pickBest c) := by
      rw [aget_bgpBestRoutes, hp]
      rfl
    have hfil : (bgpBestRoutes adjRibIn).filter (fun kv => kv.1 = p)
        = [(p, cs.foldl pickBest c)] :=
      filter_keys_single _ p _ (nodup_bgpBestRoutes adjRibIn) hget
    unfold bgpRecompute
    rw [bgp_filter_map_entry, hfil]
    rfl

/-- C3 amended, witness: the spec's own localPref example.  The Adj-RIB-In
holds two candidates for 10.0.0.0/24, localPref 100 first and localPref 200
second; the theorem applied there yields the winner (the fold selects
exRoute200, beaten by no candidate) and the single resulting table entry. -/
theorem c3_best_path_characterization_witness :
    bgpCandidates exRibLocalPref "10.0.0.0/24" = [exRoute100, exRoute200]
    ∧ ∃ w, w = [exRoute200].foldl pickBest exRoute100
        ∧ (w = exRoute100 ∨ w ∈ [exRoute200])
        ∧ (∀ x, (x = exRoute100 ∨ x ∈ [exRoute200]) → compareRoutes x w = false)
        ∧ (bgpRecompute exRibLocalPref).filter (fun e => e.destination = "10.0.0.0/24")
            = [bgpEntryOf ("10.0.0.0/24", w)] :=
  ⟨by decide,
    (c3_best_path_characterization exRibLocalPref).2.2 "10.0.0.0/24" exRoute100 [exRoute200]
      (by decide)⟩

/-! ## C2 — link-state SPF: walk lemmas -/

theorem walk_snoc {g : List (String × LsNode)} {s u v : String} {d : Nat}
    (w : Walk g s u d) (e : Edge g u v) : Walk g s v (d + 10) := by
  induction w with
  | nil => exact Walk.cons e (Walk.nil v)
  | cons e' _ ih => exact Walk.cons e' (ih e)

theorem walk_decomp {g : List (String × LsNode)} {s v : String} {d : Nat}
    (w : Walk g s v d) :
    (v = s ∧ d = 0) ∨ ∃ u d', d = d' + 10 ∧ Walk g s u d' ∧ Edge g u v := by
  induction w with
  | nil => exact Or.inl ⟨rfl, rfl⟩
  | cons e w' ih =>
    rcases ih with ⟨rfl, rfl⟩ | ⟨u, d'', rfl, wu, eu⟩
    · exact Or.inr ⟨_, 0, rfl, Walk.nil _, e⟩
    · exact Or.inr ⟨u, d'' + 10, rfl, Walk.cons e wu, eu⟩

theorem walk_first_edge {g : List (String × LsNode)} {s v : String} {d : Nat}
    (w : Walk g s v d) : s = v ∨ ∃ n, Edge g s n := by
  cases w with
  | nil => exact Or.inl rfl
  | cons e _ => exact Or.inr ⟨_, e⟩

theorem mem_akeys_of_edge {g : List (String × LsNode)} {u v : String}
    (e : Edge g u v) : u ∈ akeys g := by
  rw [mem_akeys_iff_aget]
  intro hnone
  unfold Edge nbrs at e
  rw [hnone] at e
  cases e

/-! ## C2 — the min-extraction scan -/

theorem selStep_some (dist : String → Option Nat) (acc : Option (String × Nat))
    (node : String) (d : Nat) (hdn : dist node = some d)
    (hacc : ∀ w m, acc = some (w, m) → dist w = some m) :
    ∃ w0 m0, selStep dist acc node = some (w0, m0)
      ∧ dist w0 = some m0
      ∧ m0 ≤ d
      ∧ (∀ w' m', acc = some (w', m') → m0 ≤ m')
      ∧ (acc = some (w0, m0) ∨ w0 = node) := by
  unfold selStep
  rw [hdn]
  cases hac : acc with
  | none =>
    exact ⟨node, d, rfl, hdn, le_refl d, fun w' m' h => Option.noConfusion h, Or.inr rfl⟩
  | some p =>
    obtain ⟨b, m⟩ := p
    by_cases hlt : d < m
    · refine ⟨node, d, by simp [hlt], hdn, le_refl d, fun w' m' h => ?_, Or.inr rfl⟩
      cases h
      omega
    · refine ⟨b, m, by simp [hlt], hacc b m hac, by omega, fun w' m' h => ?_, Or.inl rfl⟩
      cases h
      exact le_refl m

theorem selectMin_fold (dist : String → Option Nat) (l : List String) :
    ∀ acc : Option (String × Nat),
    (∀ w m, acc = some (w, m) → dist w = some m) →
    ((l.foldl (selStep dist) acc = none → acc = none ∧ ∀ b ∈ l, dist b = none)
    ∧ (∀ u du, l.foldl (selStep dist) acc = some (u, du) →
        dist u = some du
        ∧ (acc = some (u, du) ∨ u ∈ l)
        ∧ (∀ b ∈ l, ∀ db, dist b = some db → du ≤ db)
        ∧ (∀ w m, acc = some (w, m) → du ≤ m))) := by
  induction l with
  | nil =>
    intro acc hacc
    refine ⟨fun h => ⟨h, by simp⟩, fun u du h => ?_⟩
    refine ⟨hacc u du h, Or.inl h, by simp, fun w m hw => ?_⟩
    have h' : acc = some (u, du) := h
    rw [h'] at hw
    cases hw
    exact le_refl du
  | cons node rest ih =>
    intro acc hacc
    simp only [List.foldl_cons]
    cases hdn : dist node with
    | none =>
      have hstep : selStep dist acc node = acc := by
        unfold selStep
        rw [hdn]
      rw [hstep]
      obtain ⟨ihn, ihs⟩ := ih acc hacc
      refine ⟨fun h => ?_, fun u du h => ?_⟩
      · obtain ⟨h1, h2⟩ := ihn h
        refine ⟨h1, fun b hb => ?_⟩
        rcases List.mem_cons.mp hb with rfl | hb
        · exact hdn
        · exact h2 b hb
      · obtain ⟨g1, g2, g3, g4⟩ := ihs u du h
        refine ⟨g1, ?_, fun b hb db hdb => ?_, g4⟩
        · rcases g2 with h' | h'
          · exact Or.inl h'
          · exact Or.inr (List.mem_cons_of_mem node h')
        · rcases List.mem_cons.mp hb with rfl | hb
          · rw [hdn] at hdb
            cases hdb
          · exact g3 b hb db hdb
    | some d =>
      obtain ⟨w0, m0, hstep, hw0, hm0d, hm0acc, hw0src⟩ :=
        selStep_some dist acc node d hdn hacc
      rw [hstep]
      have hacc' : ∀ w m, (some (w0, m0) : Option (String × Nat)) = some (w, m) →
          dist w = some m := by
        intro w m h
        cases h
        exact hw0
      obtain ⟨ihn, ihs⟩ := ih (some (w0, m0)) hacc'
      refine ⟨fun h => ?_, fun u du h => ?_⟩
      · obtain ⟨h1, _⟩ := ihn h
        cases h1
      · obtain ⟨g1, g2, g3, g4⟩ := ihs u du h
        have hdum0 : du ≤ m0 := g4 w0 m0 rfl
        refine ⟨g1, ?_, fun b hb db hdb => ?_, fun w m hw => ?_⟩
        · rcases g2 with h' | h'
          · cases h'
            rcases hw0src with h'' | h''
            · exact Or.inl h''
            · subst h''
              exact Or.inr (List.mem_cons_self _ _)
          · exact Or.inr (List.mem_cons_of_mem node h')
        · rcases List.mem_cons.mp hb with rfl | hb
          · rw [hdn] at hdb
            cases hdb
            omega
          · exact g3 b hb db hdb
        · have := hm0acc w m hw
          omega

theorem selectMin_some (dist : String → Option Nat) (queue : List String)
    (u : String) (du : Nat) (h : selectMin dist queue = some (u, du)) :
    u ∈ queue ∧ dist u = some du
      ∧ ∀ b ∈ queue, ∀ db, dist b = some db → du ≤ db := by
  obtain ⟨_, hs⟩ := selectMin_fold dist queue none (fun w m hw => by cases hw)
  obtain ⟨g1, g2, g3, _⟩ := hs u du h
  rcases g2 with h' | h'
  · cases h'
  · exact ⟨h', g1, g3⟩

theorem selectMin_none (dist : String → Option Nat) (queue : List String)
    (h : selectMin dist queue = none) : ∀ b ∈ queue, dist b = none := by
  obtain ⟨hn, _⟩ := selectMin_fold dist queue none (fun w m hw => by cases hw)
  exact (hn h).2

/-! ## C2 — relaxation -/

theorem upd_self {β : Type} (f : String → β) (k : String) (v : β) : upd f k v k = v := by
  simp [upd]

theorem upd_ne {β : Type} (f : String → β) (k x : String) (v : β) (h : x ≠ k) :
    upd f k v x = f x := by
  simp [upd, h]

theorem relaxStep_spec (u v : String) (visited : List String) (st : DState) :
    (relaxStep u visited st v = st
      ∧ (visited.contains v = true ∨ st.dist u = none
         ∨ ∃ du dv, st.dist u = some du ∧ st.dist v = some dv ∧ dv ≤ du + 10))
    ∨ (visited.contains v = false
      ∧ ∃ du, st.dist u = some du
        ∧ relaxStep u visited st v = ⟨upd st.dist v (some (du + 10)), upd st.prev v (some u)⟩
        ∧ (st.dist v = none ∨ ∃ dv, st.dist v = some dv ∧ du + 10 < dv)) := by
  unfold relaxStep
  by_cases hv : visited.contains v = true
  · rw [if_pos hv]
    exact Or.inl ⟨rfl, Or.inl hv⟩
  · have hv' : visited.contains v = false := by simpa using hv
    rw [if_neg hv]
    cases hdu : st.dist u with
    | none => exact Or.inl ⟨rfl, Or.inr (Or.inl rfl)⟩
    | some du =>
      cases hdv : st.dist v with
      | none => exact Or.inr ⟨hv', du, rfl, rfl, Or.inl rfl⟩
      | some dv =>
        by_cases hlt : du + 10 < dv
        · refine Or.inr ⟨hv', du, rfl, ?_, Or.inr ⟨dv, rfl, hlt⟩⟩
          simp [hlt]
        · refine Or.inl ⟨?_, Or.inr (Or.inr ⟨du, dv, rfl, rfl, by omega⟩)⟩
          simp [hlt]

theorem relaxStep_pre (g : List (String × LsNode)) (me u : String) (du : Nat)
    (visited : List String) (st : DState) (v : String)
    (hv_nbr : Edge g u v) (huv : u ∈ visited)
    (hbound : du + 10 ≤ 10 * visited.length)
    (pre : RelaxPre g me u du visited st) :
    RelaxPre g me u du visited (relaxStep u visited st v)
    ∧ (∀ x ∈ visited, (relaxStep u visited st v).dist x = st.dist x)
    ∧ (∀ x d, st.dist x = some d → ∃ e, e ≤ d ∧ (relaxStep u visited st v).dist x = some e)
    ∧ (∀ x d, (relaxStep u visited st v).dist x = some d → st.dist x = some d ∨ d = du + 10)
    ∧ (visited.contains v = false →
        ∃ dv, (relaxStep u visited st v).dist v = some dv ∧ dv ≤ du + 10) := by
  rcases relaxStep_spec u v visited st with ⟨heq, hreason⟩ | ⟨hnv, du', hdu', hchange, hold⟩
  · rw [heq]
    refine ⟨pre, fun x _ => rfl, fun x d h => ⟨d, le_refl d, h⟩, fun x d h => Or.inl h, ?_⟩
    intro hv
    rcases hreason with h1 | h2 | ⟨du0, dv, hdu0, hdv, hle⟩
    · rw [hv] at h1
      cases h1
    · rw [pre.pdu] at h2
      cases h2
    · rw [pre.pdu] at hdu0
      cases hdu0
      exact ⟨dv, hdv, hle⟩
  · have hdu'' : du = du' := by
      rw [pre.pdu] at hdu'
      cases hdu'
      rfl
    subst hdu''
    have hvnv : v ∉ visited := by simpa using hnv
    have huvne : u ≠ v := fun h => hvnv (h ▸ huv)
    have hvme : v ≠ me := by
      intro h
      subst h
      rcases hold with h0 | ⟨dv, hdv, hlt⟩
      · rw [pre.pZ] at h0
        cases h0
      · rw [pre.pZ] at hdv
        cases hdv
        omega
    have hdist : ∀ x, (relaxStep u visited st v).dist x
        = if x = v then some (du + 10) else st.dist x := by
      intro x
      rw [hchange]
      by_cases hx : x = v
      · simp [upd, hx]
      · simp [upd, hx]
    have hprev : ∀ x, (relaxStep u visited st v).prev x
        = if x = v then some u else st.prev x := by
      intro x
      rw [hchange]
      by_cases hx : x = v
      · simp [upd, hx]
      · simp [upd, hx]
    refine ⟨⟨?_, ?_, ?_, ?_, ?_, ?_, ?_, ?_⟩, ?_, ?_, ?_, ?_⟩
    · rw [hdist u, if_neg huvne]
      exact pre.pdu
    · rw [hdist me, if_neg (fun h => hvme h.symm)]
      exact pre.pZ
    · intro x d h
      rw [hdist x] at h
      by_cases hx : x = v
      · rw [if_pos hx] at h
        cases h
        subst hx
        exact walk_snoc (pre.pS u du pre.pdu) hv_nbr
      · rw [if_neg hx] at h
        exact pre.pS x d h
    · intro w p h
      rw [hprev w] at h
      by_cases hw : w = v
      · rw [if_pos hw] at h
        cases h
        subst hw
        refine ⟨huv, hv_nbr, du, ?_, ?_⟩
        · rw [hdist u, if_neg huvne]
          exact pre.pdu
        · rw [hdist w, if_pos rfl]
      · rw [if_neg hw] at h
        obtain ⟨hpv, hpe, dp, hdp, hdw⟩ := pre.pP w p h
        have hpne : p ≠ v := fun hh => hvnv (hh ▸ hpv)
        refine ⟨hpv, hpe, dp, ?_, ?_⟩
        · rw [hdist p, if_neg hpne]
          exact hdp
        · rw [hdist w, if_neg hw]
          exact hdw
    · intro x d h hxme
      by_cases hx : x = v
      · subst hx
        exact ⟨u, by rw [hprev x, if_pos rfl]⟩
      · rw [hdist x, if_neg hx] at h
        obtain ⟨p, hp⟩ := pre.pP2 x d h hxme
        refine ⟨p, ?_⟩
        rw [hprev x, if_neg hx]
        exact hp
    · intro a ha da hda
      have hane : a ≠ v := fun hh => hvnv (hh ▸ ha)
      rw [hdist a, if_neg hane] at hda
      exact pre.pVle a ha da hda
    · intro a ha
      have hane : a ≠ v := fun hh => hvnv (hh ▸ ha)
      obtain ⟨da, hda⟩ := pre.pVfin a ha
      refine ⟨da, ?_⟩
      rw [hdist a, if_neg hane]
      exact hda
    · intro x d h
      rw [hdist x] at h
      by_cases hx : x = v
      · rw [if_pos hx] at h
        cases h
        exact hbound
      · rw [if_neg hx] at h
        exact pre.pB x d h
    · intro x hx
      have hxne : x ≠ v := fun hh => hvnv (hh ▸ hx)
      rw [hdist x, if_neg hxne]
    · intro x d h
      by_cases hx : x = v
      · subst hx
        rcases hold with h0 | ⟨dv, hdv, hlt⟩
        · rw [h0] at h
          cases h
        · rw [hdv] at h
          cases h
          refine ⟨du + 10, by omega, ?_⟩
          rw [hdist x, if_pos rfl]
      · refine ⟨d, le_refl d, ?_⟩
        rw [hdist x, if_neg hx]
        exact h
    · intro x d h
      rw [hdist x] at h
      by_cases hx : x = v
      · rw [if_pos hx] at h
        cases h
        exact Or.inr rfl
      · rw [if_neg hx] at h
        exact Or.inl h
    · intro _
      refine ⟨du + 10, ?_, le_refl _⟩
      rw [hdist v, if_pos rfl]

theorem relaxAll_facts (g : List (String × LsNode)) (me u : String) (du : Nat)
    (visited : List String) :
    ∀ (vs : List String) (st : DState),
    (∀ v ∈ vs, Edge g u v) → u ∈ visited → du + 10 ≤ 10 * visited.length →
    RelaxPre g me u du visited st →
    RelaxOut g me u du visited vs st (relaxAll u vs visited st) := by
  intro vs
  induction vs with
  | nil =>
    intro st _ _ _ pre
    exact ⟨pre.pdu, pre.pZ, pre.pS, pre.pP, pre.pP2, pre.pVle, pre.pVfin, pre.pB,
      fun x d h => ⟨d, le_refl d, h⟩, fun x d h => Or.inl h,
      fun v hv => absurd hv (List.not_mem_nil v), fun x _ => rfl⟩
  | cons v rest ih =>
    intro st hvs huv hbound pre
    obtain ⟨pre1, froz1, mono1, new1, nbr1⟩ :=
      relaxStep_pre g me u du visited st v (hvs v (List.mem_cons_self v rest)) huv hbound pre
    have hrest : ∀ w ∈ rest, Edge g u w := fun w hw => hvs w (List.mem_cons_of_mem v hw)
    have out := ih (relaxStep u visited st v) hrest huv hbound pre1
    have hfold : relaxAll u (v :: rest) visited st
        = relaxAll u rest visited (relaxStep u visited st v) := rfl
    rw [hfold]
    refine ⟨out.rdu, out.rZ, out.rS, out.rP, out.rP2, out.rVle, out.rVfin, out.rB,
      ?_, ?_, ?_, ?_⟩
    · intro x d h
      obtain ⟨e, he, h1⟩ := mono1 x d h
      obtain ⟨e', he', h2⟩ := out.rMono x e h1
      exact ⟨e', by omega, h2⟩
    · intro x d h
      rcases out.rNew x d h with h1 | h1
      · exact new1 x d h1
      · exact Or.inr h1
    · intro w hw hcw
      rcases List.mem_cons.mp hw with rfl | hw
      · obtain ⟨dv, hdv, hle⟩ := nbr1 hcw
        obtain ⟨e, he, h2⟩ := out.rMono w dv hdv
        exact ⟨e, h2, by omega⟩
      · exact out.rNbr w hw hcw
    · intro x hx
      rw [out.rFroz x hx, froz1 x hx]

/-! ## C2 — the main loop -/

theorem terminal_of_inv {g : List (String × LsNode)} {me : String} {st : DState}
    {visited queue : List String} (inv : DInv g me st visited queue)
    (hfin : ∀ x ∈ akeys g, st.dist x = none ∨ x ∈ visited) :
    DTerminal g me st := by
  refine ⟨inv.hZ, inv.hS, ?_, inv.hP2, ?_, ?_⟩
  · intro v p h
    obtain ⟨hpv, hrest⟩ := inv.hP v p h
    exact ⟨inv.hVK p hpv, hrest⟩
  · intro u hu du hdu v hv
    rcases hfin u hu with h | h
    · rw [h] at hdu
      cases hdu
    · exact inv.hT u h du hdu v hv
  · intro v d h
    have hlen : visited.length ≤ (akeys g).length :=
      (inv.hVN.subperm (fun x hx => inv.hVK x hx)).length_le
    have := inv.hB v d h
    omega

theorem all_visited_of_empty {g : List (String × LsNode)} {me : String} {st : DState}
    {visited : List String} (inv : DInv g me st visited []) :
    ∀ x ∈ akeys g, st.dist x = none ∨ x ∈ visited := by
  intro x hx
  right
  have h := inv.hPart x hx
  by_contra hxv
  exact List.not_mem_nil x (h.mpr hxv)

theorem dijkstra_step {g : List (String × LsNode)} {me : String} {st : DState}
    {visited queue : List String} {u : String} {du : Nat}
    (inv : DInv g me st visited queue)
    (hsel : selectMin st.dist queue = some (u, du)) :
    DInv g me (relaxAll u (nbrs g u) (visited ++ [u]) st)
      (visited ++ [u]) (queue.erase u) := by
  obtain ⟨hu, hdu, hmin⟩ := selectMin_some st.dist queue u du hsel
  have huK : u ∈ akeys g := inv.hQK u hu
  have hunv : u ∉ visited := (inv.hPart u huK).mp hu
  have huv' : u ∈ visited ++ [u] := List.mem_append_right visited (List.mem_cons_self u [])
  have hlen' : (visited ++ [u]).length = visited.length + 1 := by simp
  have hbound : du + 10 ≤ 10 * (visited ++ [u]).length := by
    have := inv.hB u du hdu
    omega
  have pre : RelaxPre g me u du (visited ++ [u]) st := by
    refine ⟨hdu, inv.hZ, inv.hS, ?_, inv.hP2, ?_, ?_, ?_⟩
    · intro v p h
      obtain ⟨hpv, hrest⟩ := inv.hP v p h
      exact ⟨List.mem_append_left [u] hpv, hrest⟩
    · intro a ha da hda
      rcases List.mem_append.mp ha with ha | ha
      · exact inv.hM a ha da hda u hu du hdu
      · have hau : a = u := by simpa using ha
        subst hau
        rw [hdu] at hda
        cases hda
        exact le_refl _
    · intro a ha
      rcases List.mem_append.mp ha with ha | ha
      · exact inv.hVfin a ha
      · have hau : a = u := by simpa using ha
        subst hau
        exact ⟨du, hdu⟩
    · intro v d h
      have := inv.hB v d h
      omega
  have out := relaxAll_facts g me u du (visited ++ [u]) (nbrs g u) st
      (fun v hv => hv) huv' hbound pre
  refine ⟨?_, List.Nodup.erase u inv.hQN, ?_, ?_, ?_, out.rVfin, out.rZ, out.rS,
    out.rP, out.rP2, ?_, ?_, ?_⟩
  · exact fun x hx => inv.hQK x (List.erase_subset u queue hx)
  · rw [List.nodup_append]
    refine ⟨inv.hVN, List.nodup_singleton u, ?_⟩
    intro a ha hb
    have hau : a = u := by simpa using hb
    subst hau
    exact hunv ha
  · intro x hx
    rcases List.mem_append.mp hx with hx | hx
    · exact inv.hVK x hx
    · have hxu : x = u := by simpa using hx
      subst hxu
      exact huK
  · intro x hxK
    constructor
    · intro hxq
      have hxe := (List.Nodup.mem_erase_iff inv.hQN).mp hxq
      intro hxv'
      rcases List.mem_append.mp hxv' with hxv | hxv
      · exact ((inv.hPart x hxK).mp hxe.2) hxv
      · exact hxe.1 (by simpa using hxv)
    · intro hxv'
      have hxv : x ∉ visited := fun h => hxv' (List.mem_append_left [u] h)
      have hxu : x ≠ u := fun h => hxv' (by rw [h]; exact huv')
      have hxq : x ∈ queue := (inv.hPart x hxK).mpr hxv
      exact (List.Nodup.mem_erase_iff inv.hQN).mpr ⟨hxu, hxq⟩
  · intro a ha da hda b hb db hdb
    have hda' : da ≤ du := out.rVle a ha da hda
    have hbq : b ∈ queue := List.erase_subset u queue hb
    rcases out.rNew b db hdb with h1 | h1
    · have := hmin b hbq db h1
      omega
    · omega
  · intro w hw dw hdw v hv
    rcases List.mem_append.mp hw with hwv | hwu
    · have hfz := out.rFroz w (List.mem_append_left [u] hwv)
      rw [hfz] at hdw
      obtain ⟨dv, hdv, hdvle⟩ := inv.hT w hwv dw hdw v hv
      obtain ⟨e, he, h2⟩ := out.rMono v dv hdv
      exact ⟨e, h2, by omega⟩
    · have hwu' : w = u := by simpa using hwu
      rw [hwu'] at hdw hv
      rw [out.rdu] at hdw
      cases hdw
      by_cases hcv : (visited ++ [u]).contains v = true
      · have hv2 : v ∈ visited ++ [u] := by simpa using hcv
        obtain ⟨dv, hdv⟩ := out.rVfin v hv2
        have := out.rVle v hv2 dv hdv
        exact ⟨dv, hdv, by omega⟩
      · have hcv' : (visited ++ [u]).contains v = false := by simpa using hcv
        exact out.rNbr v hv hcv'
  · exact out.rB

theorem dijkstraGo_terminal (g : List (String × LsNode)) (me : String) :
    ∀ (fuel : Nat) (queue : List String) (st : DState) (visited : List String),
    queue.length ≤ fuel → DInv g me st visited queue →
    DTerminal g me (dijkstraGo g fuel st visited queue) := by
  intro fuel
  induction fuel with
  | zero =>
    intro queue st visited hlen inv
    have hq : queue = [] := List.length_eq_zero.mp (Nat.le_zero.mp hlen)
    subst hq
    exact terminal_of_inv inv (all_visited_of_empty inv)
  | succ f ih =>
    intro queue st visited hlen inv
    simp only [dijkstraGo]
    by_cases hq : queue.isEmpty = true
    · rw [if_pos hq]
      have hq' : queue = [] := by
        cases queue with
        | nil => rfl
        | cons a l => simp [List.isEmpty] at hq
      subst hq'
      exact terminal_of_inv inv (all_visited_of_empty inv)
    · rw [if_neg hq]
      cases hsel : selectMin st.dist queue with
      | none =>
        refine terminal_of_inv inv ?_
        intro x hx
        by_cases hxq : x ∈ queue
        · exact Or.inl (selectMin_none st.dist queue hsel x hxq)
        · right
          by_contra hxv
          exact hxq ((inv.hPart x hx).mpr hxv)
      | some p =>
        obtain ⟨u, du⟩ := p
        obtain ⟨hu, _, _⟩ := selectMin_some st.dist queue u du hsel
        apply ih
        · have h1 := List.length_erase_of_mem hu
          have hqpos : 0 < queue.length := by
            cases queue with
            | nil => cases hu
            | cons a l => simp
          omega
        · exact dijkstra_step inv hsel

/-! ## C2 — characterizing the final maps -/

theorem dijkstra_terminal (g : List (String × LsNode)) (me : String)
    (hnd : (akeys g).Nodup) : DTerminal g me (dijkstra g me) := by
  unfold dijkstra
  apply dijkstraGo_terminal g me (akeys g).length (akeys g) _ [] (le_refl _)
  refine ⟨fun x hx => hx, hnd, List.nodup_nil, ?_, ?_, ?_, ?_, ?_, ?_, ?_, ?_, ?_, ?_⟩
  · intro x hx
    exact absurd hx (List.not_mem_nil x)
  · intro x hx
    exact ⟨fun _ => List.not_mem_nil x, fun _ => hx⟩
  · intro a ha
    exact absurd ha (List.not_mem_nil a)
  · simp
  · intro v d h
    by_cases hv : v = me
    · subst hv
      simp only [if_pos rfl] at h
      cases h
      exact Walk.nil v
    · simp [hv] at h
  · intro v p h
    exact Option.noConfusion h
  · intro v d h hv
    simp [hv] at h
  · intro a ha
    exact absurd ha (List.not_mem_nil a)
  · intro a ha
    exact absurd ha (List.not_mem_nil a)
  · intro v d h
    by_cases hv : v = me
    · subst hv
      simp only [if_pos rfl] at h
      cases h
      simp
    · simp [hv] at h

theorem dist_le_walk {g : List (String × LsNode)} {me : String} {st : DState}
    (term : DTerminal g me st) :
    ∀ (d : Nat) (v : String), Walk g me v d → ∃ dv, st.dist v = some dv ∧ dv ≤ d := by
  intro d
  induction d using Nat.strong_induction_on with
  | _ d ih =>
    intro v w
    rcases walk_decomp w with ⟨rfl, rfl⟩ | ⟨u, d', rfl, wu, eu⟩
    · exact ⟨0, term.hZ, le_refl 0⟩
    · obtain ⟨du, hdu, hle⟩ := ih d' (by omega) u wu
      have huK : u ∈ akeys g := mem_akeys_of_edge eu
      obtain ⟨dv, hdv, hb⟩ := term.hT u huK du hdu _ eu
      exact ⟨dv, hdv, by omega⟩

theorem dist_min {g : List (String × LsNode)} {me : String} {st : DState}
    (term : DTerminal g me st) {v : String} {d : Nat}
    (h : st.dist v = some d) : Walk g me v d ∧ ∀ e, Walk g me v e → d ≤ e := by
  refine ⟨term.hS v d h, fun e we => ?_⟩
  obtain ⟨dv, hdv, hle⟩ := dist_le_walk term e v we
  rw [h] at hdv
  cases hdv
  omega

theorem dist_none_of_unreach {g : List (String × LsNode)} {me : String} {st : DState}
    (term : DTerminal g me st) {v : String}
    (h : ¬ Reach g me v) : st.dist v = none := by
  cases hd : st.dist v with
  | none => rfl
  | some d => exact absurd ⟨d, term.hS v d hd⟩ h

theorem dist_some_of_reach {g : List (String × LsNode)} {me : String} {st : DState}
    (term : DTerminal g me st) {v : String}
    (h : Reach g me v) : ∃ d, st.dist v = some d := by
  obtain ⟨e, we⟩ := h
  obtain ⟨dv, hdv, _⟩ := dist_le_walk term e v we
  exact ⟨dv, hdv⟩

theorem walkPrev_unreach {g : List (String × LsNode)} {me : String} {st : DState}
    (term : DTerminal g me st) {x : String}
    (h : st.dist x = none) (f : Nat) : walkPrev (f + 1) st.prev me x = x := by
  have hp : st.prev x = none := by
    cases hpx : st.prev x with
    | none => rfl
    | some p =>
      obtain ⟨_, _, dp, _, hdx⟩ := term.hP x p hpx
      rw [h] at hdx
      cases hdx
  simp [walkPrev, hp]

theorem walkPrev_spec {g : List (String × LsNode)} {me : String} {st : DState}
    (term : DTerminal g me st) (hne : ∀ k ∈ akeys g, ¬(k = "")) :
    ∀ (fuel : Nat) (x : String) (dx : Nat), st.dist x = some dx → x ≠ me →
      dx ≤ 10 * fuel →
      Edge g me (walkPrev fuel st.prev me x)
      ∧ ∃ d0, dx = d0 + 10 ∧ Walk g (walkPrev fuel st.prev me x) x d0 := by
  intro fuel
  induction fuel with
  | zero =>
    intro x dx hdx hxme hb
    obtain ⟨p, hp⟩ := term.hP2 x dx hdx hxme
    obtain ⟨_, _, dp, _, hdx'⟩ := term.hP x p hp
    rw [hdx] at hdx'
    cases hdx'
    omega
  | succ f ih =>
    intro x dx hdx hxme hb
    obtain ⟨p, hp⟩ := term.hP2 x dx hdx hxme
    obtain ⟨hpK, hpe, dp, hdp, hdx'⟩ := term.hP x p hp
    have hdxeq : dx = dp + 10 := by
      rw [hdx] at hdx'
      cases hdx'
      rfl
    have hpne : ¬(p = "") := hne p hpK
    by_cases hpme : p = me
    · have hw : walkPrev (f + 1) st.prev me x = x := by
        simp [walkPrev, hp, hpme]
      rw [hw]
      have hdp0 : dp = 0 := by
        rw [hpme] at hdp
        rw [term.hZ] at hdp
        cases hdp
        rfl
      refine ⟨?_, dp, hdxeq, ?_⟩
      · rw [← hpme]
        exact hpe
      · rw [hdp0]
        exact Walk.nil x
    · have hw : walkPrev (f + 1) st.prev me x = walkPrev f st.prev me p := by
        simp [walkPrev, hp, hpne, hpme]
      rw [hw]
      have hdpb : dp ≤ 10 * f := by omega
      obtain ⟨he, d0, hd0, hwalk⟩ := ih p dp hdp hpme hdpb
      exact ⟨he, d0 + 10, by omega, walk_snoc hwalk hpe⟩

theorem akeys_graphOf (lsdb : List (String × LsaPayload)) :
    akeys (graphOf lsdb) = lsdb.map Prod.fst := by
  simp only [akeys, graphOf, List.map_map]
  rfl

/-- C2 counterexample: node X sits in the LSDB with no adjacency anywhere, so
it is unreachable from R1 — yet `recomputeRoutes` still emits a routing
entry for X's prefix, with the fallback metric 10 (`distances.get(...) ?? 10`)
and X itself as next hop, refuting "nodes unreachable from the local router
contribute no entries" at this input. -/
theorem c2_unreachable_node_contributes_entry :
    ¬ Reach (graphOf exIsolatedLsdb) "R1" "X"
    ∧ "X" ∈ exIsolatedLsdb.map Prod.fst
    ∧ ("X" : String) ≠ "R1"
    ∧ spfCompute "ospf" 110 "R1" exIsolatedLsdb
        = [{ destination := "10.9.0.0/24", nextHop := "X", metric := 10,
             protocol := "ospf", administrativeDistance := 110 }] := by
  refine ⟨?_, by decide, by decide, by decide⟩
  rintro ⟨d, w⟩
  rcases walk_first_edge w with h | ⟨n, hn⟩
  · exact absurd h (by decide)
  · have hnil : nbrs (graphOf exIsolatedLsdb) "R1" = [] := by decide
    simp [Edge, hnil] at hn

/-- C2 amended: for every link-state database with distinct, nonempty
originator keys, `recomputeRoutes` (the shared SPF of the OSPF and IS-IS
engines, with their protocol tag and administrative distance) emits, for
EVERY node of the database other than the local router — reachable or not —
exactly one RoutingEntry per prefix owned by that node, in database order.
For a node reachable from the local router the metric is the length of a
shortest directed walk to it at cost 10 per hop, and the next hop is the
first hop of such a shortest walk (an out-neighbor of the local router from
which the rest of the walk reaches the node at 10 less cost).  A node
UNREACHABLE from the local router also contributes entries — this is where
the original claim fails — with the fallback metric 10 and the node itself
as next hop. -/
theorem c2_spf_characterization (lsdb : List (String × LsaPayload)) (me : String)
    (hnd : (lsdb.map Prod.fst).Nodup) (hne : "" ∉ lsdb.map Prod.fst) :
    ∃ nh : String → String, ∃ met : String → Nat,
      (∀ proto ad, spfCompute proto ad me lsdb
        = (graphOf lsdb).foldl (fun table kv =>
            if kv.1 = me then table
            else table ++ kv.2.prefixes.map (fun p =>
              { destination := p, nextHop := nh kv.1, metric := met kv.1,
                protocol := proto, administrativeDistance := ad })) [])
      ∧ Ospf.recomputeRoutes me lsdb = spfCompute "ospf" 110 me lsdb
      ∧ Isis.recomputeRoutes me lsdb = spfCompute "isis" 115 me lsdb
      ∧ (∀ k, k ∈ lsdb.map Prod.fst → k ≠ me →
          (Reach (graphOf lsdb) me k →
            Walk (graphOf lsdb) me k (met k)
            ∧ (∀ d, Walk (graphOf lsdb) me k d → met k ≤ d)
            ∧ Edge (graphOf lsdb) me (nh k)
            ∧ ∃ d0, met k = d0 + 10 ∧ Walk (graphOf lsdb) (nh k) k d0)
          ∧ (¬ Reach (graphOf lsdb) me k → met k = 10 ∧ nh k = k)) := by
  have hndg : (akeys (graphOf lsdb)).Nodup := by
    rw [akeys_graphOf]
    exact hnd
  have term := dijkstra_terminal (graphOf lsdb) me hndg
  have hneg : ∀ k ∈ akeys (graphOf lsdb), ¬(k = "") := by
    intro k hk he
    rw [akeys_graphOf] at hk
    subst he
    exact hne hk
  refine ⟨fun k => walkPrev (lsdb.length + 1) (dijkstra (graphOf lsdb) me).prev me k,
    fun k => ((dijkstra (graphOf lsdb) me).dist k).getD 10,
    fun proto ad => rfl, rfl, rfl, ?_⟩
  intro k hk hkme
  constructor
  · intro hreach
    obtain ⟨d, hd⟩ := dist_some_of_reach term hreach
    obtain ⟨hwalk, hmin⟩ := dist_min term hd
    have hbd : d ≤ 10 * (lsdb.length + 1) := by
      have hb := term.hB k d hd
      rw [akeys_graphOf] at hb
      have hlen : (lsdb.map Prod.fst).length = lsdb.length := List.length_map lsdb Prod.fst
      omega
    obtain ⟨hedge, d0, hd0, hw0⟩ :=
      walkPrev_spec term hneg (lsdb.length + 1) k d hd hkme hbd
    have hmet : ((dijkstra (graphOf lsdb) me).dist k).getD 10 = d := by
      rw [hd]
      rfl
    simp only [hmet]
    exact ⟨hwalk, hmin, hedge, d0, hd0, hw0⟩
  · intro hunreach
    have hd := dist_none_of_unreach term hunreach
    refine ⟨by simp only [hd]; rfl, ?_⟩
    exact walkPrev_unreach term hd lsdb.length

/-- C2 amended, witness: the three-node line R1 - R2 - R3 (the spec's own
example) satisfies the hypotheses, and the theorem applied there
characterizes the table — in particular R1's route to R3's prefix has
next hop R2 and metric 20, as decided separately on the node R3. -/
theorem c2_spf_characterization_witness :
    ((exLineLsdb.map Prod.fst).Nodup ∧ "" ∉ exLineLsdb.map Prod.fst)
    ∧ (∃ nh : String → String, ∃ met : String → Nat,
      (∀ proto ad, spfCompute proto ad "R1" exLineLsdb
        = (graphOf exLineLsdb).foldl (fun table kv =>
            if kv.1 = "R1" then table
            else table ++ kv.2.prefixes.map (fun p =>
              { destination := p, nextHop := nh kv.1, metric := met kv.1,
                protocol := proto, administrativeDistance := ad })) [])
      ∧ Ospf.recomputeRoutes "R1" exLineLsdb = spfCompute "ospf" 110 "R1" exLineLsdb
      ∧ Isis.recomputeRoutes "R1" exLineLsdb = spfCompute "isis" 115 "R1" exLineLsdb
      ∧ (∀ k, k ∈ exLineLsdb.map Prod.fst → k ≠ "R1" →
          (Reach (graphOf exLineLsdb) "R1" k →
            Walk (graphOf exLineLsdb) "R1" k (met k)
            ∧ (∀ d, Walk (graphOf exLineLsdb) "R1" k d → met k ≤ d)
            ∧ Edge (graphOf exLineLsdb) "R1" (nh k)
            ∧ ∃ d0, met k = d0 + 10 ∧ Walk (graphOf exLineLsdb) (nh k) k d0)
          ∧ (¬ Reach (graphOf exLineLsdb) "R1" k → met k = 10 ∧ nh k = k))) :=
  ⟨⟨by decide, by decide⟩, c2_spf_characterization exLineLsdb "R1" (by decide) (by decide)⟩
